import Mathlib

/-!
Shallow embedding of the lot-ledger core of `src/db.rs`.

Modelling conventions:
* `NaiveDate` is modelled as a `Nat` (dates are only compared; any linear
  order works, and concrete dates are written `yyyymmdd`).
* `f64` prices are modelled as `Int`: the ledger core never performs
  arithmetic on prices, it only stores them and compares them for equality
  (the merge key), so any type with decidable equality is faithful for the
  operations under study.
* `Pubkey`, `Signature`, `Epoch`, `Slot` and `Exchange` are opaque
  identifiers; they are modelled as `Nat`.
* Rust panics (`assert!`, `assert_eq!`) are modelled by the `fatal` outcome
  of the `Res` type, distinct from recoverable `DbError` returns.
* Rust's stable `sort_by_key` is modelled by a stable insertion sort
  (`List.insertionSort`): a stable sort's output is determined by the key
  order and the input order alone, so the two agree on every input.
* The in-memory `PickleDb` document store is modelled by the `Db` structure
  holding the lists stored under the keys `accounts`, `deposits`,
  `transfers`, `orders`, `disposed-lots` and `next_lot_number`.
  `ladd` appends to a list; `lpop` removes at a position.  Flushing
  (`save`/`dump`) has no observable effect on store contents and is not
  modelled.
-/

/-- Error taxonomy of `DbError` in `src/db.rs` (the `Io`/`PickleDb` wrappers
carry external failures and are not produced by the modelled code). -/
inductive DbError : Type where
  | AccountAlreadyExists (address : Nat)
  | AccountDoesNotExist (address : Nat)
  | PendingTransferDoesNotExist (signature : Nat)
  | PendingDepositDoesNotExist (signature : Nat)
  | AccountHasInsufficientBalance (address : Nat)
  | OpenOrderDoesNotExist (order_id : String)
deriving DecidableEq, Repr

/-- Outcome of an operation: `fatal` models a Rust panic (failed `assert!`),
`fail` a recoverable `Err(DbError)`, `ok` a normal `Ok` return. -/
inductive Res (α : Type) : Type where
  | fatal
  | fail (e : DbError)
  | ok (a : α)
deriving DecidableEq, Repr

/-- `LotAcquistionKind` from `src/db.rs` (source spelling kept). -/
inductive LotAcquistionKind : Type where
  | EpochReward (epoch : Nat) (slot : Nat)
  | Transaction (slot : Nat) (signature : Nat)
  | NotAvailable
deriving DecidableEq, Repr

/-- `LotAcquistion`: acquisition date, price and provenance; equality of this
whole value is the merge key. -/
structure LotAcquistion : Type where
  when : Nat
  price : Int
  kind : LotAcquistionKind
deriving DecidableEq, Repr

/-- `Lot`: a numbered tax lot holding `amount` units. -/
structure Lot : Type where
  lot_number : Nat
  acquisition : LotAcquistion
  amount : Nat
deriving DecidableEq, Repr

/-- `TrackedAccount` from `src/db.rs`. -/
structure TrackedAccount : Type where
  address : Nat
  description : String
  last_update_epoch : Nat
  last_update_balance : Nat
  lots : List Lot
deriving DecidableEq, Repr

/-- `PendingDeposit` from `src/db.rs`. -/
structure PendingDeposit : Type where
  signature : Nat
  exchange : Nat
  amount : Nat
deriving DecidableEq, Repr

/-- `PendingTransfer` from `src/db.rs`. -/
structure PendingTransfer : Type where
  signature : Nat
  from_address : Nat
  to_address : Nat
  lots : List Lot
deriving DecidableEq, Repr

/-- `OpenOrder` from `src/db.rs`. -/
structure OpenOrder : Type where
  exchange : Nat
  pair : String
  order_id : String
  lots : List Lot
  deposit_address : Nat
deriving DecidableEq, Repr

/-- `LotDisposalKind` from `src/db.rs`. -/
inductive LotDisposalKind : Type where
  | Usd (exchange : Nat) (pair : String) (order_id : String)
deriving DecidableEq, Repr

/-- `DisposedLot` from `src/db.rs`. -/
structure DisposedLot : Type where
  lot : Lot
  when : Nat
  price : Int
  kind : LotDisposalKind
deriving DecidableEq, Repr

/-- The document store contents used by the lot-ledger core: the lists kept
under the keys `accounts`, `deposits`, `transfers`, `orders`,
`disposed-lots`, and the `next_lot_number` counter (`get::<usize>` with
`unwrap_or(0)` is modelled by initialising the field to 0). -/
structure Db : Type where
  accounts : List TrackedAccount
  deposits : List PendingDeposit
  transfers : List PendingTransfer
  orders : List OpenOrder
  disposed_lots : List DisposedLot
  next_lot_number : Nat
deriving DecidableEq, Repr

/-- `self.lots.iter().map(|lot| lot.amount).sum()` — the lot balance of a
lot collection. -/
def lotBalance (lots : List Lot) : Nat :=
  (lots.map Lot.amount).sum

/-- The check performed by `TrackedAccount::assert_lot_balance`: the account
is consistent (invariant I1) when the lot balance equals
`last_update_balance`. -/
def TrackedAccount.consistent (a : TrackedAccount) : Prop :=
  lotBalance a.lots = a.last_update_balance

instance (a : TrackedAccount) : Decidable a.consistent := by
  unfold TrackedAccount.consistent; infer_instance

/-- The sort key relation of `lots.sort_by_key(|lot| lot.acquisition.when)`:
comparison of acquisition dates. -/
def dateLe (a b : Lot) : Prop :=
  a.acquisition.when ≤ b.acquisition.when

instance : DecidableRel dateLe := fun a b => Nat.decLe _ _

instance : IsTotal Lot dateLe := ⟨fun a b => Nat.le_total _ _⟩

instance : IsTrans Lot dateLe := ⟨fun _ _ _ h h' => Nat.le_trans h h'⟩

/-- `lots.sort_by_key(|lot| lot.acquisition.when)` — Rust's stable sort by
acquisition date.  A stable sort's output is determined by the key order and
the input order alone, so this stable insertion sort computes the same list
as Rust's stable merge sort. -/
def sortLotsByDate (lots : List Lot) : List Lot :=
  lots.insertionSort dateLe

/-- The consumption loop of `TrackedAccount::extract_lots` (`src/db.rs`
lines 234–255).  Input: lots in consumption order, the amount still to
extract, the `next_lot_number` counter.  Output:
(lots kept in the account, extracted lots, amount still unextracted,
updated counter).  A lot not larger than the remaining amount is consumed
whole; a larger lot is split, the split-off part receiving a freshly issued
lot number; once the remaining amount is zero the rest is kept. -/
def extractLoop : List Lot → Nat → Nat → (List Lot × List Lot × Nat × Nat)
  | [], r, n => ([], [], r, n)
  | lot :: rest, r, n =>
    if 0 < r then
      if lot.amount ≤ r then
        let out := extractLoop rest (r - lot.amount) n
        (out.1, lot :: out.2.1, out.2.2)
      else
        let split : Lot := ⟨n, lot.acquisition, r⟩
        let reduced : Lot := { lot with amount := lot.amount - r }
        let out := extractLoop rest 0 (n + 1)
        (reduced :: out.1, split :: out.2.1, out.2.2)
    else
      let out := extractLoop rest r n
      (lot :: out.1, out.2.1, out.2.2)

/-- `src/db.rs` lines 228–232: if the sorted lot list is non-empty, remove
its first (oldest) lot and push it onto the end, so that the assumed
rent-reserve lot is consumed only as a last resort. -/
def rotateOldestToEnd : List Lot → List Lot
  | [] => []
  | first :: rest => rest ++ [first]

/-- `TrackedAccount::extract_lots` (`src/db.rs` lines 220–266), with the
`next_lot_number` counter passed and returned explicitly (in the source it
lives in the `Db`).  Fails with `AccountHasInsufficientBalance` when
`last_update_balance < amount`; otherwise sorts the lots by date, moves the
oldest lot (the assumed rent reserve) to the end of the consumption order,
runs the consumption loop, re-sorts both outputs by date, and models the two
final `assert`s (`extracted sum == amount`, then `assert_lot_balance` after
`last_update_balance -= amount`) as `fatal` outcomes. -/
def TrackedAccount.extract_lots (a : TrackedAccount) (n : Nat) (amount : Nat) :
    Res (TrackedAccount × List Lot × Nat) :=
  if a.last_update_balance < amount then
    .fail (.AccountHasInsufficientBalance a.address)
  else
    let out := extractLoop (rotateOldestToEnd (sortLotsByDate a.lots)) amount n
    let kept := sortLotsByDate out.1
    let extracted := sortLotsByDate out.2.1
    if lotBalance extracted = amount then
      let a' : TrackedAccount :=
        { a with lots := kept, last_update_balance := a.last_update_balance - amount }
      if lotBalance a'.lots = a'.last_update_balance then
        .ok (a', extracted, out.2.2.2)
      else .fatal
    else .fatal

/-- One step of `TrackedAccount::merge_lots`: `self.lots.iter_mut().find(|l|
l.acquisition == lot.acquisition)` — add the incoming amount onto the first
existing lot with an identical acquisition, else push the incoming lot
unchanged. -/
def addLot : List Lot → Lot → List Lot
  | [], lot => [lot]
  | l :: ls, lot =>
    if l.acquisition = lot.acquisition then
      { l with amount := l.amount + lot.amount } :: ls
    else
      l :: addLot ls lot

/-- `TrackedAccount::merge_lots` (`src/db.rs` lines 268–284): fold each
incoming lot into the account's lots, add the total incoming amount to
`last_update_balance`, then model the final `assert_lot_balance` as a
`fatal` outcome. -/
def TrackedAccount.merge_lots (a : TrackedAccount) (lots : List Lot) :
    Res TrackedAccount :=
  let a' : TrackedAccount :=
    { a with
        lots := lots.foldl addLot a.lots
        last_update_balance := a.last_update_balance + lotBalance lots }
  if lotBalance a'.lots = a'.last_update_balance then .ok a' else .fatal

example :
    extractLoop [⟨0, ⟨20210101, 10, .NotAvailable⟩, 1000⟩,
                 ⟨1, ⟨20200101, 1, .NotAvailable⟩, 10⟩] 500 7 =
      ([⟨0, ⟨20210101, 10, .NotAvailable⟩, 500⟩, ⟨1, ⟨20200101, 1, .NotAvailable⟩, 10⟩],
       [⟨7, ⟨20210101, 10, .NotAvailable⟩, 500⟩], 0, 8) := by
  decide

example :
    TrackedAccount.extract_lots
      ⟨100, "A", 0, 1010,
        [⟨0, ⟨20210101, 10, .NotAvailable⟩, 1000⟩, ⟨1, ⟨20200101, 1, .NotAvailable⟩, 10⟩]⟩
      7 500 =
    .ok (⟨100, "A", 0, 510,
          [⟨1, ⟨20200101, 1, .NotAvailable⟩, 10⟩, ⟨0, ⟨20210101, 10, .NotAvailable⟩, 500⟩]⟩,
         [⟨7, ⟨20210101, 10, .NotAvailable⟩, 500⟩], 8) := by
  decide

/-! ## Basic lemmas about lot sums and sorting -/

theorem lotBalance_nil : lotBalance [] = 0 := rfl

theorem lotBalance_cons (x : Lot) (l : List Lot) :
    lotBalance (x :: l) = x.amount + lotBalance l := by
  simp [lotBalance]

theorem lotBalance_append (l l' : List Lot) :
    lotBalance (l ++ l') = lotBalance l + lotBalance l' := by
  simp [lotBalance]

theorem lotBalance_perm {l l' : List Lot} (h : l.Perm l') :
    lotBalance l = lotBalance l' := by
  unfold lotBalance
  exact (h.map Lot.amount).sum_eq

theorem sortLotsByDate_perm (l : List Lot) : (sortLotsByDate l).Perm l :=
  List.perm_insertionSort dateLe l

theorem lotBalance_sort (l : List Lot) :
    lotBalance (sortLotsByDate l) = lotBalance l :=
  lotBalance_perm (sortLotsByDate_perm l)

theorem mem_sortLotsByDate {x : Lot} {l : List Lot} :
    x ∈ sortLotsByDate l ↔ x ∈ l :=
  (sortLotsByDate_perm l).mem_iff

theorem sorted_sortLotsByDate (l : List Lot) :
    (sortLotsByDate l).Sorted dateLe :=
  List.sorted_insertionSort dateLe l

/-- Total amount carried by the lots of a collection whose acquisition
identity is exactly `acq`. -/
def acqBalance (lots : List Lot) (acq : LotAcquistion) : Nat :=
  lotBalance (lots.filter (fun l => decide (l.acquisition = acq)))

theorem acqBalance_nil (acq : LotAcquistion) : acqBalance [] acq = 0 := rfl

theorem acqBalance_cons (x : Lot) (l : List Lot) (acq : LotAcquistion) :
    acqBalance (x :: l) acq =
      (if x.acquisition = acq then x.amount else 0) + acqBalance l acq := by
  unfold acqBalance
  by_cases h : x.acquisition = acq <;> simp [List.filter_cons, h, lotBalance_cons]

theorem acqBalance_append (l l' : List Lot) (acq : LotAcquistion) :
    acqBalance (l ++ l') acq = acqBalance l acq + acqBalance l' acq := by
  unfold acqBalance
  rw [List.filter_append, lotBalance_append]

theorem acqBalance_perm {l l' : List Lot} (h : l.Perm l') (acq : LotAcquistion) :
    acqBalance l acq = acqBalance l' acq :=
  lotBalance_perm (h.filter _)

theorem acqBalance_sort (l : List Lot) (acq : LotAcquistion) :
    acqBalance (sortLotsByDate l) acq = acqBalance l acq :=
  acqBalance_perm (sortLotsByDate_perm l) acq

/-! ## Lemmas about the extraction loop -/

/-- The extracted amount plus the amount still unextracted equals the
requested amount. -/
theorem extractLoop_extracted_add (l : List Lot) (r n : Nat) :
    lotBalance (extractLoop l r n).2.1 + (extractLoop l r n).2.2.1 = r := by
  induction l generalizing r n with
  | nil => simp [extractLoop, lotBalance_nil]
  | cons lot rest ih =>
    simp only [extractLoop]
    split
    next hr =>
      split
      next hle =>
        have h := ih (r - lot.amount) n
        simp only [lotBalance_cons]
        omega
      next hgt =>
        have h := ih 0 (n + 1)
        simp only [lotBalance_cons]
        omega
    next hr =>
      exact ih r n

/-- Kept lots and extracted lots together carry exactly the input amount. -/
theorem extractLoop_total (l : List Lot) (r n : Nat) :
    lotBalance (extractLoop l r n).1 + lotBalance (extractLoop l r n).2.1 =
      lotBalance l := by
  induction l generalizing r n with
  | nil => simp [extractLoop, lotBalance_nil]
  | cons lot rest ih =>
    simp only [extractLoop]
    split
    next hr =>
      split
      next hle =>
        have h := ih (r - lot.amount) n
        simp only [lotBalance_cons]
        omega
      next hgt =>
        have h := ih 0 (n + 1)
        simp only [lotBalance_cons]
        omega
    next hr =>
      have h := ih r n
      simp only [lotBalance_cons]
      omega

/-- The unextracted remainder is the requested amount truncated-minus the
available amount. -/
theorem extractLoop_remaining (l : List Lot) (r n : Nat) :
    (extractLoop l r n).2.2.1 = r - lotBalance l := by
  induction l generalizing r n with
  | nil => simp [extractLoop, lotBalance_nil]
  | cons lot rest ih =>
    simp only [extractLoop]
    split
    next hr =>
      split
      next hle =>
        have h := ih (r - lot.amount) n
        simp only [lotBalance_cons]
        omega
      next hgt =>
        have h := ih 0 (n + 1)
        simp only [lotBalance_cons]
        omega
    next hr =>
      have h := ih r n
      simp only [lotBalance_cons]
      omega

/-- Per-acquisition-identity conservation through the extraction loop:
splitting preserves the acquisition, so for every acquisition identity the
kept and extracted amounts sum to the input amount. -/
theorem extractLoop_acqBalance (l : List Lot) (r n : Nat) (acq : LotAcquistion) :
    acqBalance (extractLoop l r n).1 acq + acqBalance (extractLoop l r n).2.1 acq =
      acqBalance l acq := by
  induction l generalizing r n with
  | nil => simp [extractLoop, acqBalance_nil]
  | cons lot rest ih =>
    simp only [extractLoop]
    split
    next hr =>
      split
      next hle =>
        have h := ih (r - lot.amount) n
        simp only [acqBalance_cons]
        by_cases hacq : lot.acquisition = acq <;> simp [hacq] <;> omega
      next hgt =>
        have h := ih 0 (n + 1)
        simp only [acqBalance_cons]
        by_cases hacq : lot.acquisition = acq <;> simp [hacq] <;> omega
    next hr =>
      have h := ih r n
      simp only [acqBalance_cons]
      by_cases hacq : lot.acquisition = acq <;> simp [hacq] <;> omega

/-- Running the loop with nothing left to extract keeps everything. -/
theorem extractLoop_zero (l : List Lot) (n : Nat) :
    extractLoop l 0 n = (l, [], 0, n) := by
  induction l with
  | nil => rfl
  | cons lot rest ih => simp [extractLoop, ih]

/-- The loop distributes over append: the first segment is processed first,
then the second with the leftover amount and counter. -/
theorem extractLoop_append (xs ys : List Lot) (r n : Nat) :
    extractLoop (xs ++ ys) r n =
      ((extractLoop xs r n).1 ++
         (extractLoop ys (extractLoop xs r n).2.2.1 (extractLoop xs r n).2.2.2).1,
       (extractLoop xs r n).2.1 ++
         (extractLoop ys (extractLoop xs r n).2.2.1 (extractLoop xs r n).2.2.2).2.1,
       (extractLoop ys (extractLoop xs r n).2.2.1 (extractLoop xs r n).2.2.2).2.2) := by
  induction xs generalizing r n with
  | nil => simp [extractLoop]
  | cons lot rest ih =>
    simp only [List.cons_append, extractLoop]
    split
    next hr =>
      split
      next hle => simp [ih]
      next hgt => simp [ih]
    next hr =>
      simp [ih]

theorem rotateOldestToEnd_perm (l : List Lot) : (rotateOldestToEnd l).Perm l := by
  cases l with
  | nil => rfl
  | cons x xs =>
    simpa [rotateOldestToEnd] using (List.perm_append_singleton x xs)

theorem lotBalance_rotate (l : List Lot) :
    lotBalance (rotateOldestToEnd l) = lotBalance l :=
  lotBalance_perm (rotateOldestToEnd_perm l)

/-- Explicit form of a successful extraction: when the account is consistent
and has `amount` available, `extract_lots` succeeds and its components are
the (re-sorted) outputs of the consumption loop run on the rotated
date-sorted lots. -/
theorem extract_lots_eq_ok (a : TrackedAccount) (n amount : Nat)
    (hcons : a.consistent) (hle : amount ≤ a.last_update_balance) :
    a.extract_lots n amount =
      .ok
        ({ a with
            lots := sortLotsByDate
              (extractLoop (rotateOldestToEnd (sortLotsByDate a.lots)) amount n).1,
            last_update_balance := a.last_update_balance - amount },
         sortLotsByDate
           (extractLoop (rotateOldestToEnd (sortLotsByDate a.lots)) amount n).2.1,
         (extractLoop (rotateOldestToEnd (sortLotsByDate a.lots)) amount n).2.2.2) := by
  have hrot : lotBalance (rotateOldestToEnd (sortLotsByDate a.lots)) =
      a.last_update_balance := by
    rw [lotBalance_rotate, lotBalance_sort]
    exact hcons
  have hrem :
      (extractLoop (rotateOldestToEnd (sortLotsByDate a.lots)) amount n).2.2.1 = 0 := by
    rw [extractLoop_remaining, hrot]
    omega
  have hext :
      lotBalance
        (sortLotsByDate
          (extractLoop (rotateOldestToEnd (sortLotsByDate a.lots)) amount n).2.1) =
        amount := by
    rw [lotBalance_sort]
    have h := extractLoop_extracted_add (rotateOldestToEnd (sortLotsByDate a.lots)) amount n
    omega
  have hkept :
      lotBalance
        (sortLotsByDate
          (extractLoop (rotateOldestToEnd (sortLotsByDate a.lots)) amount n).1) =
        a.last_update_balance - amount := by
    rw [lotBalance_sort]
    have h2 := extractLoop_total (rotateOldestToEnd (sortLotsByDate a.lots)) amount n
    have h1 := extractLoop_extracted_add (rotateOldestToEnd (sortLotsByDate a.lots)) amount n
    omega
  simp only [TrackedAccount.extract_lots]
  rw [if_neg (by omega)]
  simp [hext, hkept]

/-- Bundled properties of a successful extraction, as used by the callers in
`Db`. -/
theorem extract_lots_ok_spec (a : TrackedAccount) (n amount : Nat)
    (hcons : a.consistent) (hle : amount ≤ a.last_update_balance) :
    ∃ a' extracted n',
      a.extract_lots n amount = .ok (a', extracted, n') ∧
      a'.address = a.address ∧
      a'.last_update_balance = a.last_update_balance - amount ∧
      lotBalance extracted = amount ∧
      lotBalance a'.lots = lotBalance a.lots - amount ∧
      (∀ acq, acqBalance a'.lots acq + acqBalance extracted acq = acqBalance a.lots acq) ∧
      a'.consistent := by
  refine ⟨_, _, _, extract_lots_eq_ok a n amount hcons hle, rfl, rfl, ?_, ?_, ?_, ?_⟩
  · rw [lotBalance_sort]
    have h := extractLoop_extracted_add (rotateOldestToEnd (sortLotsByDate a.lots)) amount n
    have hrem :
        (extractLoop (rotateOldestToEnd (sortLotsByDate a.lots)) amount n).2.2.1 = 0 := by
      rw [extractLoop_remaining, lotBalance_rotate, lotBalance_sort]
      unfold TrackedAccount.consistent at hcons
      omega
    omega
  · show lotBalance (sortLotsByDate _) = _
    rw [lotBalance_sort]
    have h2 := extractLoop_total (rotateOldestToEnd (sortLotsByDate a.lots)) amount n
    have h1 := extractLoop_extracted_add (rotateOldestToEnd (sortLotsByDate a.lots)) amount n
    have hrot : lotBalance (rotateOldestToEnd (sortLotsByDate a.lots)) = lotBalance a.lots := by
      rw [lotBalance_rotate, lotBalance_sort]
    have hrem :
        (extractLoop (rotateOldestToEnd (sortLotsByDate a.lots)) amount n).2.2.1 = 0 := by
      rw [extractLoop_remaining, hrot]
      unfold TrackedAccount.consistent at hcons
      omega
    omega
  · intro acq
    show acqBalance (sortLotsByDate _) acq + acqBalance (sortLotsByDate _) acq = _
    rw [acqBalance_sort, acqBalance_sort]
    have h := extractLoop_acqBalance (rotateOldestToEnd (sortLotsByDate a.lots)) amount n acq
    rw [h]
    exact acqBalance_perm ((rotateOldestToEnd_perm _).trans (sortLotsByDate_perm _)) acq
  · show lotBalance (sortLotsByDate _) = a.last_update_balance - amount
    rw [lotBalance_sort]
    have h2 := extractLoop_total (rotateOldestToEnd (sortLotsByDate a.lots)) amount n
    have h1 := extractLoop_extracted_add (rotateOldestToEnd (sortLotsByDate a.lots)) amount n
    have hrot : lotBalance (rotateOldestToEnd (sortLotsByDate a.lots)) =
        a.last_update_balance := by
      rw [lotBalance_rotate, lotBalance_sort]
      exact hcons
    have hrem :
        (extractLoop (rotateOldestToEnd (sortLotsByDate a.lots)) amount n).2.2.1 = 0 := by
      rw [extractLoop_remaining, hrot]
      omega
    omega

/-! ## Lemmas about merging -/

theorem lotBalance_addLot (l : List Lot) (lot : Lot) :
    lotBalance (addLot l lot) = lotBalance l + lot.amount := by
  induction l with
  | nil => simp [addLot, lotBalance]
  | cons x xs ih =>
    simp only [addLot]
    split
    next h => simp [lotBalance_cons]; omega
    next h => simp [lotBalance_cons, ih]; omega

theorem lotBalance_foldl_addLot (ls : List Lot) (l : List Lot) :
    lotBalance (ls.foldl addLot l) = lotBalance l + lotBalance ls := by
  induction ls generalizing l with
  | nil => simp [lotBalance_nil]
  | cons x xs ih =>
    simp only [List.foldl_cons, ih, lotBalance_addLot, lotBalance_cons]
    omega

theorem acqBalance_addLot (l : List Lot) (lot : Lot) (acq : LotAcquistion) :
    acqBalance (addLot l lot) acq =
      acqBalance l acq + (if lot.acquisition = acq then lot.amount else 0) := by
  induction l with
  | nil => by_cases h : lot.acquisition = acq <;> simp [addLot, acqBalance_cons, acqBalance_nil, h]
  | cons x xs ih =>
    simp only [addLot]
    split
    next h =>
      by_cases hacq : lot.acquisition = acq
      · have hx : x.acquisition = acq := by rw [h, hacq]
        simp [acqBalance_cons, hx, hacq]
        omega
      · have hx : ¬ x.acquisition = acq := by rw [h]; exact hacq
        simp [acqBalance_cons, hx, hacq]
    next h =>
      simp only [acqBalance_cons, ih]
      omega

theorem acqBalance_foldl_addLot (ls : List Lot) (l : List Lot) (acq : LotAcquistion) :
    acqBalance (ls.foldl addLot l) acq = acqBalance l acq + acqBalance ls acq := by
  induction ls generalizing l with
  | nil => simp [acqBalance_nil]
  | cons x xs ih =>
    simp only [List.foldl_cons, ih, acqBalance_addLot, acqBalance_cons]
    omega

/-- When no existing lot has the incoming lot's acquisition, `addLot`
appends the incoming lot unchanged. -/
theorem addLot_of_no_match (l : List Lot) (lot : Lot)
    (h : ∀ x ∈ l, x.acquisition ≠ lot.acquisition) :
    addLot l lot = l ++ [lot] := by
  induction l with
  | nil => rfl
  | cons x xs ih =>
    simp only [addLot]
    rw [if_neg (h x (List.mem_cons_self x xs))]
    rw [ih (fun y hy => h y (List.mem_cons_of_mem x hy))]
    rfl

/-- When some existing lot has the incoming lot's acquisition, `addLot`
adds the incoming amount onto the first such lot and leaves everything else
unchanged. -/
theorem addLot_of_match (l : List Lot) (lot : Lot)
    (h : ∃ x ∈ l, x.acquisition = lot.acquisition) :
    ∃ pre x post,
      l = pre ++ x :: post ∧
      x.acquisition = lot.acquisition ∧
      (∀ y ∈ pre, y.acquisition ≠ lot.acquisition) ∧
      addLot l lot = pre ++ { x with amount := x.amount + lot.amount } :: post := by
  induction l with
  | nil => simp at h
  | cons a xs ih =>
    by_cases ha : a.acquisition = lot.acquisition
    · exact ⟨[], a, xs, by simp, ha, by simp, by simp [addLot, ha]⟩
    · obtain ⟨x, hx, hxa⟩ := h
      rcases List.mem_cons.1 hx with hxeq | hxs
      · exact absurd (hxeq ▸ hxa) ha
      · obtain ⟨pre, x', post, hsplit, hacq, hpre, heq⟩ := ih ⟨x, hxs, hxa⟩
        refine ⟨a :: pre, x', post, by simp [hsplit], hacq, ?_, ?_⟩
        · intro y hy
          rcases List.mem_cons.1 hy with hyeq | hyp
          · exact hyeq ▸ ha
          · exact hpre y hyp
        · simp [addLot, ha, heq]

/-- A successful merge: when the account is consistent, `merge_lots` passes
its final `assert_lot_balance` and returns the folded lots with the balance
increased by the total incoming amount. -/
theorem merge_lots_ok (a : TrackedAccount) (ls : List Lot) (hcons : a.consistent) :
    a.merge_lots ls =
      .ok { a with
              lots := ls.foldl addLot a.lots,
              last_update_balance := a.last_update_balance + lotBalance ls } := by
  unfold TrackedAccount.merge_lots
  rw [if_pos]
  simp only [lotBalance_foldl_addLot]
  unfold TrackedAccount.consistent at hcons
  omega

/-! ## Claim theorems for the lot arithmetic -/

/-- C3 — Extraction exactness: for a consistent account (invariant I1, which
every stored `TrackedAccount` satisfies), requesting more than the total lot
sum fails with `AccountHasInsufficientBalance` (returning no lots), and
requesting at most the total succeeds with extracted lots summing to exactly
`amount` and remaining lots summing to exactly `total - amount`. -/
theorem extraction_exactness (a : TrackedAccount) (n amount : Nat)
    (hcons : a.consistent) :
    (lotBalance a.lots < amount →
      a.extract_lots n amount = .fail (.AccountHasInsufficientBalance a.address)) ∧
    (amount ≤ lotBalance a.lots →
      ∃ a' extracted n',
        a.extract_lots n amount = .ok (a', extracted, n') ∧
        lotBalance extracted = amount ∧
        lotBalance a'.lots = lotBalance a.lots - amount) := by
  constructor
  · intro hlt
    unfold TrackedAccount.extract_lots
    rw [if_pos]
    unfold TrackedAccount.consistent at hcons
    omega
  · intro hle
    unfold TrackedAccount.consistent at hcons
    obtain ⟨a', extracted, n', heq, _, _, hext, hkept, _, _⟩ :=
      extract_lots_ok_spec a n amount hcons (by omega)
    exact ⟨a', extracted, n', heq, hext, hkept⟩

/-- Witness for C3 at a concrete input: an account holding a single 5-unit
lot rejects a request for 7 units and honours a request for 3. -/
theorem extraction_exactness_witness :
    (TrackedAccount.extract_lots ⟨1, "w", 0, 5, [⟨0, ⟨1, 1, .NotAvailable⟩, 5⟩]⟩ 10 7 =
      .fail (.AccountHasInsufficientBalance 1)) ∧
    (∃ a' extracted n',
      TrackedAccount.extract_lots ⟨1, "w", 0, 5, [⟨0, ⟨1, 1, .NotAvailable⟩, 5⟩]⟩ 10 3 =
        .ok (a', extracted, n') ∧
      lotBalance extracted = 3 ∧
      lotBalance a'.lots = lotBalance [⟨0, ⟨1, 1, .NotAvailable⟩, 5⟩] - 3) :=
  ⟨(extraction_exactness ⟨1, "w", 0, 5, [⟨0, ⟨1, 1, .NotAvailable⟩, 5⟩]⟩ 10 7
      (by decide)).1 (by decide),
   (extraction_exactness ⟨1, "w", 0, 5, [⟨0, ⟨1, 1, .NotAvailable⟩, 5⟩]⟩ 10 3
      (by decide)).2 (by decide)⟩

/-- If `o` is the strictly oldest lot of `l`, the date sort puts it first. -/
theorem sortLotsByDate_eq_cons_of_min (l : List Lot) (o : Lot) (ho : o ∈ l)
    (hmin : ∀ x ∈ l, x ≠ o → o.acquisition.when < x.acquisition.when) :
    ∃ t, sortLotsByDate l = o :: t := by
  cases hs : sortLotsByDate l with
  | nil =>
    have : o ∈ sortLotsByDate l := mem_sortLotsByDate.2 ho
    rw [hs] at this
    simp at this
  | cons x t =>
    have hx : x ∈ l := mem_sortLotsByDate.1 (by rw [hs]; exact List.mem_cons_self x t)
    by_cases hxo : x = o
    · exact ⟨t, by rw [hxo]⟩
    · exfalso
      have hom : o ∈ x :: t := by
        rw [← hs]
        exact mem_sortLotsByDate.2 ho
      have hot : o ∈ t := by
        rcases List.mem_cons.1 hom with h | h
        · exact absurd h.symm hxo
        · exact h
      have hsorted : (x :: t).Sorted dateLe := by
        rw [← hs]
        exact sorted_sortLotsByDate l
      have hle : dateLe x o := List.rel_of_sorted_cons hsorted o hot
      have hlt := hmin x hx hxo
      unfold dateLe at hle
      omega

/-- C4 — Reserve-lot-last: with a consistent account whose strictly oldest
lot is `o`, extracting an amount that the other lots can cover leaves `o`
untouched in the remaining lots (the consumption order puts the oldest lot
last, and it is reached only with nothing left to extract). -/
theorem reserve_lot_last (a : TrackedAccount) (n amount : Nat) (o : Lot)
    (hcons : a.consistent) (ho : o ∈ a.lots)
    (hmin : ∀ x ∈ a.lots, x ≠ o → o.acquisition.when < x.acquisition.when)
    (hcover : amount + o.amount ≤ a.last_update_balance) :
    ∃ a' extracted n',
      a.extract_lots n amount = .ok (a', extracted, n') ∧ o ∈ a'.lots := by
  have hle : amount ≤ a.last_update_balance := by omega
  obtain ⟨t, ht⟩ := sortLotsByDate_eq_cons_of_min a.lots o ho hmin
  refine ⟨_, _, _, extract_lots_eq_ok a n amount hcons hle, ?_⟩
  rw [mem_sortLotsByDate, ht]
  show o ∈ (extractLoop (rotateOldestToEnd (o :: t)) amount n).1
  have hbt : o.amount + lotBalance t = a.last_update_balance := by
    have hperm : lotBalance (o :: t) = lotBalance a.lots := by
      rw [← ht, lotBalance_sort]
    rw [lotBalance_cons] at hperm
    unfold TrackedAccount.consistent at hcons
    omega
  have hr1 : (extractLoop t amount n).2.2.1 = 0 := by
    rw [extractLoop_remaining]
    omega
  simp only [rotateOldestToEnd, extractLoop_append, hr1, extractLoop_zero]
  simp

/-- Witness for C4: the spec's scenario.  Account A holds a 1000-unit lot
dated 2021-01-01 at price 10 and a 10-unit reserve lot dated 2020-01-01 at
price 1; extracting 500 units (with counter at 7) yields one extracted
500-unit lot dated 2021-01-01 carrying the freshly issued lot number 7,
leaves the reserve lot untouched next to a 500-unit remainder lot, and drops
the balance from 1010 to 510; the second conjunct applies the reserve-lot
theorem at that input. -/
theorem reserve_lot_last_witness :
    (TrackedAccount.extract_lots
        ⟨100, "A", 0, 1010,
          [⟨0, ⟨20210101, 10, .NotAvailable⟩, 1000⟩,
           ⟨1, ⟨20200101, 1, .NotAvailable⟩, 10⟩]⟩ 7 500 =
      .ok (⟨100, "A", 0, 510,
            [⟨1, ⟨20200101, 1, .NotAvailable⟩, 10⟩,
             ⟨0, ⟨20210101, 10, .NotAvailable⟩, 500⟩]⟩,
           [⟨7, ⟨20210101, 10, .NotAvailable⟩, 500⟩], 8)) ∧
    (∃ a' extracted n',
      TrackedAccount.extract_lots
        ⟨100, "A", 0, 1010,
          [⟨0, ⟨20210101, 10, .NotAvailable⟩, 1000⟩,
           ⟨1, ⟨20200101, 1, .NotAvailable⟩, 10⟩]⟩ 7 500 =
        .ok (a', extracted, n') ∧
      (⟨1, ⟨20200101, 1, .NotAvailable⟩, 10⟩ : Lot) ∈ a'.lots) :=
  ⟨by decide,
   reserve_lot_last
     ⟨100, "A", 0, 1010,
       [⟨0, ⟨20210101, 10, .NotAvailable⟩, 1000⟩,
        ⟨1, ⟨20200101, 1, .NotAvailable⟩, 10⟩]⟩ 7 500
     ⟨1, ⟨20200101, 1, .NotAvailable⟩, 10⟩
     (by decide) (by decide) (by decide) (by decide)⟩

/-- C5 — Merge coalescing: for a consistent account, merging a lot list
succeeds, raises `last_update_balance` by exactly the incoming total, and
folds each incoming lot in one at a time; a single step adds the incoming
amount onto the first existing lot with an identical acquisition when one
exists, and otherwise appends the incoming lot unchanged (keeping its
original `lot_number`). -/
theorem merge_coalescing (a : TrackedAccount) (ls : List Lot)
    (hcons : a.consistent) :
    (a.merge_lots ls =
      .ok { a with
              lots := ls.foldl addLot a.lots,
              last_update_balance := a.last_update_balance + lotBalance ls }) ∧
    (∀ (l : List Lot) (lot : Lot), (∀ x ∈ l, x.acquisition ≠ lot.acquisition) →
      addLot l lot = l ++ [lot]) ∧
    (∀ (l : List Lot) (lot : Lot), (∃ x ∈ l, x.acquisition = lot.acquisition) →
      ∃ pre x post,
        l = pre ++ x :: post ∧
        x.acquisition = lot.acquisition ∧
        (∀ y ∈ pre, y.acquisition ≠ lot.acquisition) ∧
        addLot l lot = pre ++ { x with amount := x.amount + lot.amount } :: post) :=
  ⟨merge_lots_ok a ls hcons, addLot_of_no_match, addLot_of_match⟩

/-- Witness for C5: merging a matching 3-unit lot and a novel 4-unit lot
into an account with one 5-unit lot coalesces the former and appends the
latter, raising the balance from 5 to 12. -/
theorem merge_coalescing_witness :
    (TrackedAccount.merge_lots ⟨1, "m", 0, 5, [⟨0, ⟨1, 2, .NotAvailable⟩, 5⟩]⟩
        [⟨9, ⟨1, 2, .NotAvailable⟩, 3⟩, ⟨10, ⟨3, 2, .NotAvailable⟩, 4⟩] =
      .ok ⟨1, "m", 0, 12,
            [⟨0, ⟨1, 2, .NotAvailable⟩, 8⟩, ⟨10, ⟨3, 2, .NotAvailable⟩, 4⟩]⟩) ∧
    (TrackedAccount.merge_lots ⟨1, "m", 0, 5, [⟨0, ⟨1, 2, .NotAvailable⟩, 5⟩]⟩
        [⟨9, ⟨1, 2, .NotAvailable⟩, 3⟩, ⟨10, ⟨3, 2, .NotAvailable⟩, 4⟩] =
      .ok { (⟨1, "m", 0, 5, [⟨0, ⟨1, 2, .NotAvailable⟩, 5⟩]⟩ : TrackedAccount) with
              lots := [⟨9, ⟨1, 2, .NotAvailable⟩, 3⟩,
                       ⟨10, ⟨3, 2, .NotAvailable⟩, 4⟩].foldl addLot
                        [⟨0, ⟨1, 2, .NotAvailable⟩, 5⟩],
              last_update_balance :=
                5 + lotBalance [⟨9, ⟨1, 2, .NotAvailable⟩, 3⟩,
                                ⟨10, ⟨3, 2, .NotAvailable⟩, 4⟩] }) :=
  ⟨by decide,
   (merge_coalescing ⟨1, "m", 0, 5, [⟨0, ⟨1, 2, .NotAvailable⟩, 5⟩]⟩
      [⟨9, ⟨1, 2, .NotAvailable⟩, 3⟩, ⟨10, ⟨3, 2, .NotAvailable⟩, 4⟩] (by decide)).1⟩

/-! ## The `Db` operations -/

/-- The account lookup loop shared by `Db::get_account` and
`Db::get_account_position` (`src/db.rs` lines 563–585): first entry of the
`accounts` list with the given address. -/
def findAccount (address : Nat) : List TrackedAccount → Option TrackedAccount
  | [] => none
  | a :: rest => if a.address = address then some a else findAccount address rest

/-- `Db::get_account_position`: position of the first entry with the given
address. -/
def findAccountIdx (address : Nat) : List TrackedAccount → Option Nat
  | [] => none
  | a :: rest =>
    if a.address = address then some 0
    else (findAccountIdx address rest).map (fun i => i + 1)

/-- `Db::get_account`. -/
def Db.get_account (db : Db) (address : Nat) : Option TrackedAccount :=
  findAccount address db.accounts

/-- `Db::get_account_position`. -/
def Db.get_account_position (db : Db) (address : Nat) : Option Nat :=
  findAccountIdx address db.accounts

/-- `Db::add_account` (`src/db.rs` lines 507–525, via `add_account_no_save`):
asserts I1 on the incoming record (modelled as `fatal`), fails with
`AccountAlreadyExists` on a duplicate address, else appends the record. -/
def Db.add_account (db : Db) (account : TrackedAccount) : Res Unit × Db :=
  if lotBalance account.lots ≠ account.last_update_balance then (.fatal, db)
  else if (db.get_account account.address).isSome then
    (.fail (.AccountAlreadyExists account.address), db)
  else (.ok (), { db with accounts := db.accounts ++ [account] })

/-- `Db::update_account` (`src/db.rs` lines 527–542): asserts I1 on the
incoming record, fails with `AccountDoesNotExist` if the address is not
registered, else removes the stored record at its position (`lpop`) and
appends the new one (`ladd`). -/
def Db.update_account (db : Db) (account : TrackedAccount) : Res Unit × Db :=
  if lotBalance account.lots ≠ account.last_update_balance then (.fatal, db)
  else
    match db.get_account_position account.address with
    | none => (.fail (.AccountDoesNotExist account.address), db)
    | some position =>
      (.ok (), { db with accounts := db.accounts.eraseIdx position ++ [account] })

/-- `Db::remove_account` (`src/db.rs` lines 544–561). -/
def Db.remove_account (db : Db) (address : Nat) : Res Unit × Db :=
  match db.get_account_position address with
  | none => (.fail (.AccountDoesNotExist address), db)
  | some position =>
    (.ok (), { db with accounts := db.accounts.eraseIdx position })

/-- `Db::record_transfer` (`src/db.rs` lines 689–715): requires both
accounts, extracts the lots (a `None` amount means the whole current
balance; the extraction may bump `next_lot_number`), appends the new
`PendingTransfer` to the `transfers` value, and persists the reduced
from-account. -/
def Db.record_transfer (db : Db) (signature from_address : Nat)
    (amount : Option Nat) (to_address : Nat) : Res Unit × Db :=
  match db.get_account from_address with
  | none => (.fail (.AccountDoesNotExist from_address), db)
  | some from_account =>
    match db.get_account to_address with
    | none => (.fail (.AccountDoesNotExist to_address), db)
    | some _to_account =>
      match from_account.extract_lots db.next_lot_number
          (amount.getD from_account.last_update_balance) with
      | .fatal => (.fatal, db)
      | .fail e => (.fail e, db)
      | .ok (from_account', extracted, n') =>
        let db1 : Db :=
          { db with
              next_lot_number := n'
              transfers := db.transfers ++
                [⟨signature, from_address, to_address, extracted⟩] }
        db1.update_account from_account'

/-- `Db::complete_transfer` (`src/db.rs` lines 717–751): finds the first
pending transfer with the signature (else `PendingTransferDoesNotExist`),
removes every pending transfer with that signature (`retain`), requires both
accounts, merges the held lots into the to-account on success or back into
the from-account on failure, then writes the to-account followed by the
from-account. -/
def Db.complete_transfer (db : Db) (signature : Nat) (success : Bool) :
    Res Unit × Db :=
  match db.transfers.find? (fun pt => pt.signature == signature) with
  | none => (.fail (.PendingTransferDoesNotExist signature), db)
  | some pt =>
    let db1 : Db :=
      { db with transfers := db.transfers.filter (fun p => p.signature != signature) }
    match db1.get_account pt.from_address with
    | none => (.fail (.AccountDoesNotExist pt.from_address), db1)
    | some from_account =>
      match db1.get_account pt.to_address with
      | none => (.fail (.AccountDoesNotExist pt.to_address), db1)
      | some to_account =>
        if success then
          match to_account.merge_lots pt.lots with
          | .fatal => (.fatal, db1)
          | .fail e => (.fail e, db1)
          | .ok to_account' =>
            match db1.update_account to_account' with
            | (.ok _, db2) => db2.update_account from_account
            | other => other
        else
          match from_account.merge_lots pt.lots with
          | .fatal => (.fatal, db1)
          | .fail e => (.fail e, db1)
          | .ok from_account' =>
            match db1.update_account to_account with
            | (.ok _, db2) => db2.update_account from_account'
            | other => other

/-- `Db::cancel_transfer`. -/
def Db.cancel_transfer (db : Db) (signature : Nat) : Res Unit × Db :=
  db.complete_transfer signature false

/-- `Db::confirm_transfer`. -/
def Db.confirm_transfer (db : Db) (signature : Nat) : Res Unit × Db :=
  db.complete_transfer signature true

/-- `Db::record_deposit` (`src/db.rs` lines 354–375): appends the
`PendingDeposit` audit record, then records the underlying transfer. -/
def Db.record_deposit (db : Db) (signature from_address amount exchange
    deposit_address : Nat) : Res Unit × Db :=
  let db1 : Db := { db with deposits := db.deposits ++ [⟨signature, exchange, amount⟩] }
  db1.record_transfer signature from_address (some amount) deposit_address

/-- `Db::complete_deposit` (`src/db.rs` lines 377–390): finds the pending
deposit (else `PendingDepositDoesNotExist`), removes every pending deposit
with that signature, then delegates to `complete_transfer`. -/
def Db.complete_deposit (db : Db) (signature : Nat) (success : Bool) :
    Res Unit × Db :=
  match db.deposits.find? (fun pd => pd.signature == signature) with
  | none => (.fail (.PendingDepositDoesNotExist signature), db)
  | some _pd =>
    let db1 : Db :=
      { db with deposits := db.deposits.filter (fun pd => pd.signature != signature) }
    db1.complete_transfer signature success

/-- `Db::cancel_deposit` (`src/db.rs` lines 392–394): note the source passes
`true` — the success outcome — exactly as `confirm_deposit` does. -/
def Db.cancel_deposit (db : Db) (signature : Nat) : Res Unit × Db :=
  db.complete_deposit signature true

/-- `Db::confirm_deposit` (`src/db.rs` lines 396–398). -/
def Db.confirm_deposit (db : Db) (signature : Nat) : Res Unit × Db :=
  db.complete_deposit signature true

/-- `Db::record_order` (`src/db.rs` lines 417–435): appends the new
`OpenOrder` (the caller has already extracted `lots` from
`deposit_account`), then persists the reduced deposit account. -/
def Db.record_order (db : Db) (deposit_account : TrackedAccount)
    (exchange : Nat) (pair order_id : String) (lots : List Lot) :
    Res Unit × Db :=
  let db1 : Db :=
    { db with orders := db.orders ++
        [⟨exchange, pair, order_id, lots, deposit_account.address⟩] }
  db1.update_account deposit_account

/-- `Db::complete_order` (`src/db.rs` lines 437–483): finds the first open
order with the id (else `OpenOrderDoesNotExist`), removes every open order
with that id (`retain`); when fill info `(price, date)` is present, turns
each of the order's lots into a `DisposedLot` appended to the disposed-lot
record; when absent, merges the lots back into the deposit account. -/
def Db.complete_order (db : Db) (order_id : String)
    (filled : Option (Int × Nat)) : Res Unit × Db :=
  match db.orders.find? (fun o => o.order_id == order_id) with
  | none => (.fail (.OpenOrderDoesNotExist order_id), db)
  | some o =>
    let db1 : Db :=
      { db with orders := db.orders.filter (fun p => p.order_id != order_id) }
    match filled with
    | some (price, when) =>
      (.ok (),
       { db1 with
           disposed_lots := db1.disposed_lots ++
             o.lots.map (fun lot => ⟨lot, when, price, .Usd o.exchange o.pair o.order_id⟩) })
    | none =>
      match db1.get_account o.deposit_address with
      | none => (.fail (.AccountDoesNotExist o.deposit_address), db1)
      | some deposit_account =>
        match deposit_account.merge_lots o.lots with
        | .fatal => (.fatal, db1)
        | .fail e => (.fail e, db1)
        | .ok deposit_account' => db1.update_account deposit_account'

/-- `Db::cancel_order`. -/
def Db.cancel_order (db : Db) (order_id : String) : Res Unit × Db :=
  db.complete_order order_id none

/-- `Db::confirm_order`. -/
def Db.confirm_order (db : Db) (order_id : String) (price : Int) (when : Nat) :
    Res Unit × Db :=
  db.complete_order order_id (some (price, when))

/-- The record-order usage fixed by spec §4.5: the caller extracts the lots
from the deposit account's ledger and passes the reduced account together
with the extracted lots to `Db::record_order`.  This composite is the
operation the conservation claim ranges over. -/
def Db.record_order_extracting (db : Db) (deposit_address amount : Nat)
    (exchange : Nat) (pair order_id : String) : Res Unit × Db :=
  match db.get_account deposit_address with
  | none => (.fail (.AccountDoesNotExist deposit_address), db)
  | some deposit_account =>
    match deposit_account.extract_lots db.next_lot_number amount with
    | .fatal => (.fatal, db)
    | .fail e => (.fail e, db)
    | .ok (deposit_account', lots, n') =>
      ({ db with next_lot_number := n' } : Db).record_order
        deposit_account' exchange pair order_id lots

/-! ## Lemmas about account lookup and update -/

theorem findAccount_address {address : Nat} {l : List TrackedAccount}
    {a : TrackedAccount} (h : findAccount address l = some a) :
    a.address = address := by
  induction l with
  | nil => simp [findAccount] at h
  | cons x rest ih =>
    simp only [findAccount] at h
    split at h
    next hx => cases h; assumption
    next hx => exact ih h

theorem findAccount_mem {address : Nat} {l : List TrackedAccount}
    {a : TrackedAccount} (h : findAccount address l = some a) : a ∈ l := by
  induction l with
  | nil => simp [findAccount] at h
  | cons x rest ih =>
    simp only [findAccount] at h
    split at h
    next hx => cases h; exact List.mem_cons_self _ _
    next hx => exact List.mem_cons_of_mem _ (ih h)

theorem findAccount_eq_none {address : Nat} {l : List TrackedAccount} :
    findAccount address l = none ↔ ∀ x ∈ l, x.address ≠ address := by
  induction l with
  | nil => simp [findAccount]
  | cons x rest ih =>
    simp only [findAccount]
    split
    next hx => simp [hx]
    next hx => simpa [hx] using ih

theorem findAccountIdx_eq_none {address : Nat} {l : List TrackedAccount} :
    findAccountIdx address l = none ↔ findAccount address l = none := by
  induction l with
  | nil => simp [findAccountIdx, findAccount]
  | cons x rest ih =>
    simp only [findAccountIdx, findAccount]
    split
    next hx => simp
    next hx => simpa using ih

/-- Full characterisation of a successful position lookup: the accounts list
splits around the first entry with the sought address, and removing at that
position removes exactly that entry. -/
theorem findAccountIdx_some {address : Nat} {l : List TrackedAccount} {i : Nat}
    (h : findAccountIdx address l = some i) :
    ∃ pre a post,
      l = pre ++ a :: post ∧
      a.address = address ∧
      (∀ x ∈ pre, x.address ≠ address) ∧
      i = pre.length ∧
      findAccount address l = some a ∧
      l.eraseIdx i = pre ++ post := by
  induction l generalizing i with
  | nil => simp [findAccountIdx] at h
  | cons x rest ih =>
    simp only [findAccountIdx] at h
    split at h
    next hx =>
      cases h
      exact ⟨[], x, rest, rfl, hx, by simp, rfl, by simp [findAccount, hx], rfl⟩
    next hx =>
      rcases Option.map_eq_some'.1 h with ⟨j, hj, hij⟩
      obtain ⟨pre, a, post, hsplit, ha, hpre, hlen, hfind, herase⟩ := ih hj
      refine ⟨x :: pre, a, post, by simp [hsplit], ha, ?_, by simp [hlen, ← hij], ?_, ?_⟩
      · intro y hy
        rcases List.mem_cons.1 hy with hy | hy
        · exact hy ▸ hx
        · exact hpre y hy
      · simp [findAccount, hx, hfind]
      · rw [← hij]
        simpa [List.eraseIdx] using herase

/-- Converse: a split with no earlier match determines the lookup position. -/
theorem findAccountIdx_of_split {address : Nat} (pre : List TrackedAccount)
    (a : TrackedAccount) (post : List TrackedAccount) (ha : a.address = address)
    (hpre : ∀ x ∈ pre, x.address ≠ address) :
    findAccountIdx address (pre ++ a :: post) = some pre.length := by
  induction pre with
  | nil => simp [findAccountIdx, ha]
  | cons x rest ih =>
    have hx : x.address ≠ address := hpre x (List.mem_cons_self _ _)
    simp only [List.cons_append, findAccountIdx, List.append_eq, if_neg hx]
    rw [ih (fun y hy => hpre y (List.mem_cons_of_mem x hy))]
    rfl

theorem findAccount_of_split {address : Nat} (pre : List TrackedAccount)
    (a : TrackedAccount) (post : List TrackedAccount) (ha : a.address = address)
    (hpre : ∀ x ∈ pre, x.address ≠ address) :
    findAccount address (pre ++ a :: post) = some a := by
  induction pre with
  | nil => simp [findAccount, ha]
  | cons x rest ih =>
    have hx : x.address ≠ address := hpre x (List.mem_cons_self _ _)
    simp only [List.cons_append, findAccount, if_neg hx]
    exact ih (fun y hy => hpre y (List.mem_cons_of_mem x hy))

theorem findAccount_append_of_no_match {address : Nat}
    (l1 l2 : List TrackedAccount) (h : ∀ x ∈ l1, x.address ≠ address) :
    findAccount address (l1 ++ l2) = findAccount address l2 := by
  induction l1 with
  | nil => rfl
  | cons x rest ih =>
    have hx : x.address ≠ address := h x (List.mem_cons_self _ _)
    simp only [List.cons_append, findAccount, if_neg hx]
    exact ih (fun y hy => h y (List.mem_cons_of_mem x hy))

/-- Addresses of the stored accounts are pairwise distinct (`add_account`
refuses duplicates, so every reachable store satisfies this). -/
def addrNodup (l : List TrackedAccount) : Prop :=
  (l.map TrackedAccount.address).Nodup

instance (l : List TrackedAccount) : Decidable (addrNodup l) := by
  unfold addrNodup
  infer_instance

theorem addrNodup_split {pre : List TrackedAccount} {cur : TrackedAccount}
    {post : List TrackedAccount} (h : addrNodup (pre ++ cur :: post)) :
    (∀ x ∈ pre, x.address ≠ cur.address) ∧
      (∀ x ∈ post, x.address ≠ cur.address) := by
  unfold addrNodup at h
  rw [List.map_append, List.map_cons, List.nodup_append] at h
  obtain ⟨hpre, hcons, hdisj⟩ := h
  constructor
  · intro x hx heq
    exact hdisj (List.mem_map_of_mem _ hx) (by simp [heq])
  · intro x hx heq
    rw [List.nodup_cons] at hcons
    exact hcons.1 (heq ▸ List.mem_map_of_mem _ hx)

/-! ## Quantity accounting -/

def accountsBalance (l : List TrackedAccount) : Nat :=
  (l.map (fun a => lotBalance a.lots)).sum

def transfersBalance (l : List PendingTransfer) : Nat :=
  (l.map (fun t => lotBalance t.lots)).sum

def ordersBalance (l : List OpenOrder) : Nat :=
  (l.map (fun o => lotBalance o.lots)).sum

def disposedBalance (l : List DisposedLot) : Nat :=
  (l.map (fun d => d.lot.amount)).sum

/-- The conserved quantity of invariant I2: everything in tracked accounts,
plus everything held by pending transfers, plus everything held by open
orders, plus everything already disposed. -/
def totalQuantity (db : Db) : Nat :=
  accountsBalance db.accounts + transfersBalance db.transfers +
    ordersBalance db.orders + disposedBalance db.disposed_lots

theorem accountsBalance_append (l1 l2 : List TrackedAccount) :
    accountsBalance (l1 ++ l2) = accountsBalance l1 + accountsBalance l2 := by
  simp [accountsBalance]

theorem accountsBalance_cons (a : TrackedAccount) (l : List TrackedAccount) :
    accountsBalance (a :: l) = lotBalance a.lots + accountsBalance l := by
  simp [accountsBalance]

theorem transfersBalance_append (l1 l2 : List PendingTransfer) :
    transfersBalance (l1 ++ l2) = transfersBalance l1 + transfersBalance l2 := by
  simp [transfersBalance]

theorem ordersBalance_append (l1 l2 : List OpenOrder) :
    ordersBalance (l1 ++ l2) = ordersBalance l1 + ordersBalance l2 := by
  simp [ordersBalance]

theorem disposedBalance_append (l1 l2 : List DisposedLot) :
    disposedBalance (l1 ++ l2) = disposedBalance l1 + disposedBalance l2 := by
  simp [disposedBalance]

/-! ## Characterisation of the primitive account writes -/

/-- Inversion of a successful `update_account`: the incoming record passed
the I1 assertion, the store held a record with the same address, and the new
store replaces it (removal at its position, append at the end); nothing else
changes. -/
theorem update_account_ok_inv {db : Db} {a : TrackedAccount} {db' : Db}
    (h : db.update_account a = (.ok (), db')) :
    lotBalance a.lots = a.last_update_balance ∧
    ∃ pre cur post,
      db.accounts = pre ++ cur :: post ∧
      cur.address = a.address ∧
      (∀ x ∈ pre, x.address ≠ a.address) ∧
      db' = { db with accounts := (pre ++ post) ++ [a] } := by
  unfold Db.update_account at h
  split at h
  next hc => simp at h
  next hc =>
    rw [not_not] at hc
    refine ⟨hc, ?_⟩
    unfold Db.get_account_position at h
    cases hidx : findAccountIdx a.address db.accounts with
    | none => rw [hidx] at h; simp at h
    | some i =>
      rw [hidx] at h
      obtain ⟨pre, cur, post, hsplit, hcur, hpre, hlen, hfind, herase⟩ :=
        findAccountIdx_some hidx
      refine ⟨pre, cur, post, hsplit, hcur, hpre, ?_⟩
      cases h
      rw [herase]

/-- `update_account` succeeds exactly when the incoming record satisfies I1
and its address is registered. -/
theorem update_account_ok (db : Db) (a : TrackedAccount)
    (hc : lotBalance a.lots = a.last_update_balance)
    (hreg : (db.get_account a.address).isSome) :
    ∃ db', db.update_account a = (.ok (), db') := by
  unfold Db.update_account
  rw [if_neg (by omega)]
  unfold Db.get_account_position
  cases hidx : findAccountIdx a.address db.accounts with
  | none =>
    rw [findAccountIdx_eq_none] at hidx
    unfold Db.get_account at hreg
    rw [hidx] at hreg
    simp at hreg
  | some i => exact ⟨_, rfl⟩

theorem findAccount_append (address : Nat) (l1 l2 : List TrackedAccount) :
    findAccount address (l1 ++ l2) =
      match findAccount address l1 with
      | some a => some a
      | none => findAccount address l2 := by
  induction l1 with
  | nil => rfl
  | cons x rest ih =>
    simp only [List.cons_append, findAccount]
    split
    next hx => rfl
    next hx => exact ih

/-- Everything a successful `update_account` guarantees, given distinct
stored addresses: the replaced record, lookup behaviour on the new store,
preservation of address distinctness, and the account-sum accounting. -/
theorem update_account_ok_spec {db : Db} {a : TrackedAccount} {db' : Db}
    (hnodup : addrNodup db.accounts)
    (h : db.update_account a = (.ok (), db')) :
    ∃ cur,
      db.get_account a.address = some cur ∧
      db'.get_account a.address = some a ∧
      (∀ addr, addr ≠ a.address → db'.get_account addr = db.get_account addr) ∧
      addrNodup db'.accounts ∧
      (∀ x ∈ db'.accounts, x ∈ db.accounts ∨ x = a) ∧
      accountsBalance db'.accounts + lotBalance cur.lots =
        accountsBalance db.accounts + lotBalance a.lots ∧
      db'.deposits = db.deposits ∧ db'.transfers = db.transfers ∧
      db'.orders = db.orders ∧ db'.disposed_lots = db.disposed_lots ∧
      db'.next_lot_number = db.next_lot_number ∧
      lotBalance a.lots = a.last_update_balance := by
  obtain ⟨hc, pre, cur, post, hsplit, hcur, hpre, hdb'⟩ := update_account_ok_inv h
  have hnodup' := hsplit ▸ hnodup
  obtain ⟨hpre', hpost⟩ := addrNodup_split hnodup'
  have hpost' : ∀ x ∈ post, x.address ≠ a.address := fun x hx => hcur ▸ hpost x hx
  refine ⟨cur, ?_, ?_, ?_, ?_, ?_, ?_, by rw [hdb'], by rw [hdb'], by rw [hdb'],
    by rw [hdb'], by rw [hdb'], hc⟩
  · unfold Db.get_account
    rw [hsplit]
    exact findAccount_of_split pre cur post hcur hpre
  · unfold Db.get_account
    rw [hdb']
    show findAccount a.address ((pre ++ post) ++ [a]) = some a
    rw [findAccount_append_of_no_match (pre ++ post) [a] ?side]
    · simp [findAccount]
    case side =>
      intro x hx
      rcases List.mem_append.1 hx with hx | hx
      · exact hpre x hx
      · exact hpost' x hx
  · intro addr haddr
    have hcne : ¬ cur.address = addr := fun hcontr => haddr (hcontr.symm.trans hcur)
    have hane : ¬ a.address = addr := fun hcontr => haddr hcontr.symm
    unfold Db.get_account
    rw [hdb', hsplit]
    show findAccount addr ((pre ++ post) ++ [a]) = findAccount addr (pre ++ cur :: post)
    rw [findAccount_append addr (pre ++ post) [a],
        findAccount_append addr pre post,
        findAccount_append addr pre (cur :: post)]
    cases hf : findAccount addr pre with
    | some b => rfl
    | none =>
      simp only [findAccount, if_neg hcne, if_neg hane]
      cases hg : findAccount addr post with
      | some b => rfl
      | none => rfl
  · unfold addrNodup
    rw [hdb']
    show (((pre ++ post) ++ [a]).map TrackedAccount.address).Nodup
    have hperm :
        (((pre ++ post) ++ [a]).map TrackedAccount.address).Perm
          ((pre ++ cur :: post).map TrackedAccount.address) := by
      simp only [List.map_append, List.map_cons]
      refine (List.perm_append_singleton _ _).trans ?_
      rw [hcur]
      exact List.perm_middle.symm
    have hn2 : ((pre ++ cur :: post).map TrackedAccount.address).Nodup := hnodup'
    exact hperm.nodup_iff.2 hn2
  · intro x hx
    rw [hdb'] at hx
    rcases List.mem_append.1 hx with hx | hx
    · rcases List.mem_append.1 hx with hx | hx
      · exact Or.inl (hsplit ▸ List.mem_append_left _ hx)
      · exact Or.inl (hsplit ▸ List.mem_append_right _ (List.mem_cons_of_mem _ hx))
    · exact Or.inr (List.mem_singleton.1 hx)
  · rw [hdb', hsplit]
    show accountsBalance ((pre ++ post) ++ [a]) + lotBalance cur.lots =
      accountsBalance (pre ++ cur :: post) + lotBalance a.lots
    simp only [accountsBalance, List.map_append, List.map_cons, List.map_nil,
      List.sum_append, List.sum_cons, List.sum_nil]
    omega

/-- Inversion of a successful `add_account`. -/
theorem add_account_ok_inv {db : Db} {a : TrackedAccount} {db' : Db}
    (h : db.add_account a = (.ok (), db')) :
    lotBalance a.lots = a.last_update_balance ∧
    db.get_account a.address = none ∧
    db' = { db with accounts := db.accounts ++ [a] } := by
  unfold Db.add_account at h
  split at h
  next hc => simp at h
  next hc =>
    rw [not_not] at hc
    split at h
    next hs => simp at h
    next hs =>
      cases h
      exact ⟨hc, Option.not_isSome_iff_eq_none.1 hs, rfl⟩

/-- Inversion of a successful `remove_account`. -/
theorem remove_account_ok_inv {db : Db} {address : Nat} {db' : Db}
    (h : db.remove_account address = (.ok (), db')) :
    ∃ pre cur post,
      db.accounts = pre ++ cur :: post ∧ cur.address = address ∧
      db' = { db with accounts := pre ++ post } := by
  unfold Db.remove_account at h
  unfold Db.get_account_position at h
  cases hidx : findAccountIdx address db.accounts with
  | none => rw [hidx] at h; simp at h
  | some i =>
    rw [hidx] at h
    obtain ⟨pre, cur, post, hsplit, hcur, hpre, hlen, hfind, herase⟩ :=
      findAccountIdx_some hidx
    cases h
    exact ⟨pre, cur, post, hsplit, hcur, by rw [herase]⟩

/-! ## C8 and C10 -/

/-- C8 — Deposit cancel equals deposit confirm: both public entry points
invoke `complete_deposit` with the `true` (success) outcome (`src/db.rs`
lines 392–398), so the two functions are identical on every store and
signature, producing equal results and equal final states. -/
theorem deposit_cancel_confirm_identical (db : Db) (signature : Nat) :
    db.cancel_deposit signature = db.complete_deposit signature true ∧
    db.confirm_deposit signature = db.complete_deposit signature true ∧
    db.cancel_deposit signature = db.confirm_deposit signature :=
  ⟨rfl, rfl, rfl⟩

/-- C10 — Error atomicity of `record_transfer` on insufficient balance: with
both accounts registered and the requested amount above the from-account's
`last_update_balance`, the call fails with `AccountHasInsufficientBalance`
and returns the store completely unchanged (in particular `next_lot_number`
is not advanced), because the balance check precedes every mutation. -/
theorem record_transfer_insufficient_atomic (db : Db)
    (signature from_address to_address amount : Nat)
    (from_account : TrackedAccount)
    (hfrom : db.get_account from_address = some from_account)
    (hto : (db.get_account to_address).isSome)
    (hamt : from_account.last_update_balance < amount) :
    db.record_transfer signature from_address (some amount) to_address =
      (.fail (.AccountHasInsufficientBalance from_address), db) := by
  have haddr : from_account.address = from_address := findAccount_address hfrom
  obtain ⟨to_account, hto'⟩ := Option.isSome_iff_exists.1 hto
  have hextract : from_account.extract_lots db.next_lot_number
      ((some amount).getD from_account.last_update_balance) =
        .fail (.AccountHasInsufficientBalance from_account.address) := by
    unfold TrackedAccount.extract_lots
    rw [if_pos]
    simpa using hamt
  unfold Db.record_transfer
  rw [hfrom, hto']
  simp only [hextract, haddr]

/-- Witness for C10: a store with accounts 10 (balance 5) and 20 (balance 0)
rejects a transfer of 7 units from 10 to 20 and is returned unchanged. -/
theorem record_transfer_insufficient_atomic_witness :
    Db.record_transfer
        ⟨[⟨10, "a", 0, 5, [⟨0, ⟨1, 1, .NotAvailable⟩, 5⟩]⟩, ⟨20, "b", 0, 0, []⟩],
         [], [], [], [], 3⟩ 9 10 (some 7) 20 =
      (.fail (.AccountHasInsufficientBalance 10),
       ⟨[⟨10, "a", 0, 5, [⟨0, ⟨1, 1, .NotAvailable⟩, 5⟩]⟩, ⟨20, "b", 0, 0, []⟩],
        [], [], [], [], 3⟩) :=
  record_transfer_insufficient_atomic
    ⟨[⟨10, "a", 0, 5, [⟨0, ⟨1, 1, .NotAvailable⟩, 5⟩]⟩, ⟨20, "b", 0, 0, []⟩],
     [], [], [], [], 3⟩ 9 10 20 7
    ⟨10, "a", 0, 5, [⟨0, ⟨1, 1, .NotAvailable⟩, 5⟩]⟩ (by decide) (by decide) (by decide)


/-- Inversion of a successful `merge_lots`. -/
theorem merge_lots_ok_inv {a : TrackedAccount} {ls : List Lot}
    {a' : TrackedAccount} (h : a.merge_lots ls = .ok a') :
    a' = { a with
            lots := ls.foldl addLot a.lots,
            last_update_balance := a.last_update_balance + lotBalance ls } ∧
    a'.consistent ∧
    lotBalance a'.lots = lotBalance a.lots + lotBalance ls ∧
    (∀ acq, acqBalance a'.lots acq = acqBalance a.lots acq + acqBalance ls acq) := by
  unfold TrackedAccount.merge_lots at h
  simp only [] at h
  split at h
  next hcond =>
    cases h
    refine ⟨rfl, hcond, ?_, ?_⟩
    · exact lotBalance_foldl_addLot ls a.lots
    · intro acq
      exact acqBalance_foldl_addLot ls a.lots acq
  next hcond => simp at h

/-- C6 (amended) — Transfer resolution: resolving a signature carried by no
pending transfer fails with `PendingTransferDoesNotExist` and leaves the
store unchanged; a successful resolution removes every pending transfer with
that signature, and merges the held lots of the first match into the
to-account (on success, provided `from_address ≠ to_address`) or back into
the from-account (on failure, unconditionally).  The proviso is forced by
the source's write order — `update_account(to)` then `update_account(from)`
— so when the two addresses coincide the stale from-record overwrites the
merged to-record and the held lots are silently dropped. -/
theorem transfer_resolution (db : Db) (signature : Nat) (success : Bool)
    (hnodup : addrNodup db.accounts) :
    ((∀ t ∈ db.transfers, t.signature ≠ signature) →
      db.complete_transfer signature success =
        (.fail (.PendingTransferDoesNotExist signature), db)) ∧
    (∀ pt, db.transfers.find? (fun p => p.signature == signature) = some pt →
      ∀ db', db.complete_transfer signature success = (.ok (), db') →
        db'.transfers = db.transfers.filter (fun p => p.signature != signature) ∧
        (success = true → pt.from_address ≠ pt.to_address →
          ∃ to_acc, db.get_account pt.to_address = some to_acc ∧
            db'.get_account pt.to_address =
              some { to_acc with
                      lots := pt.lots.foldl addLot to_acc.lots,
                      last_update_balance :=
                        to_acc.last_update_balance + lotBalance pt.lots }) ∧
        (success = false →
          ∃ from_acc, db.get_account pt.from_address = some from_acc ∧
            db'.get_account pt.from_address =
              some { from_acc with
                      lots := pt.lots.foldl addLot from_acc.lots,
                      last_update_balance :=
                        from_acc.last_update_balance + lotBalance pt.lots })) := by
  constructor
  · intro hnone
    have hfind : db.transfers.find? (fun p => p.signature == signature) = none := by
      rw [List.find?_eq_none]
      intro t ht
      simpa using hnone t ht
    unfold Db.complete_transfer
    rw [hfind]
  · intro pt hfind db' h
    unfold Db.complete_transfer at h
    rw [hfind] at h
    simp only [Db.get_account] at h
    cases hfrom : findAccount pt.from_address db.accounts with
    | none => rw [hfrom] at h; simp at h
    | some from_acc =>
      rw [hfrom] at h
      simp only [] at h
      cases hto : findAccount pt.to_address db.accounts with
      | none => rw [hto] at h; simp at h
      | some to_acc =>
        rw [hto] at h
        simp only [] at h
        have hfromaddr : from_acc.address = pt.from_address := findAccount_address hfrom
        have htoaddr : to_acc.address = pt.to_address := findAccount_address hto
        have hnodup1 : addrNodup ({ db with transfers := db.transfers.filter (fun p => p.signature != signature) } : Db).accounts := hnodup
        cases success with
        | true =>
          rw [if_pos rfl] at h
          cases hm : to_acc.merge_lots pt.lots with
          | fatal => rw [hm] at h; simp at h
          | fail e => rw [hm] at h; simp at h
          | ok to_acc' =>
            rw [hm] at h
            simp only [] at h
            obtain ⟨hrec, hcons', hbal', hacq'⟩ := merge_lots_ok_inv hm
            cases hu1 : Db.update_account { db with transfers := db.transfers.filter (fun p => p.signature != signature) } to_acc' with
            | mk r1 db2 =>
              rw [hu1] at h
              cases r1 with
              | fatal => simp only [] at h; simp at h
              | fail e => simp only [] at h; simp at h
              | ok u =>
                cases u
                simp only [] at h
                obtain ⟨cur1, hg1, hg1', hother1, hnodup2, hmem1, hsum1, hd1, ht1,
                    ho1, hdl1, hn1, hb1⟩ := update_account_ok_spec hnodup1 hu1
                obtain ⟨cur2, hg2, hg2', hother2, hnodup3, hmem2, hsum2, hd2, ht2,
                    ho2, hdl2, hn2, hb2⟩ := update_account_ok_spec hnodup2 h
                refine ⟨by rw [ht2, ht1], ?_, ?_⟩
                · intro _ hne
                  refine ⟨to_acc, hto, ?_⟩
                  have haddr' : to_acc'.address = pt.to_address := by
                    rw [hrec]; exact htoaddr
                  have hfinal : db'.get_account pt.to_address =
                      db2.get_account pt.to_address :=
                    hother2 pt.to_address (by rw [hfromaddr]; exact hne.symm)
                  rw [hfinal, ← haddr', hg1', hrec]
                · intro hfalse
                  cases hfalse
        | false =>
          rw [if_neg Bool.false_ne_true] at h
          cases hm : from_acc.merge_lots pt.lots with
          | fatal => rw [hm] at h; simp at h
          | fail e => rw [hm] at h; simp at h
          | ok from_acc' =>
            rw [hm] at h
            simp only [] at h
            obtain ⟨hrec, hcons', hbal', hacq'⟩ := merge_lots_ok_inv hm
            cases hu1 : Db.update_account { db with transfers := db.transfers.filter (fun p => p.signature != signature) } to_acc with
            | mk r1 db2 =>
              rw [hu1] at h
              cases r1 with
              | fatal => simp only [] at h; simp at h
              | fail e => simp only [] at h; simp at h
              | ok u =>
                cases u
                simp only [] at h
                obtain ⟨cur1, hg1, hg1', hother1, hnodup2, hmem1, hsum1, hd1, ht1,
                    ho1, hdl1, hn1, hb1⟩ := update_account_ok_spec hnodup1 hu1
                obtain ⟨cur2, hg2, hg2', hother2, hnodup3, hmem2, hsum2, hd2, ht2,
                    ho2, hdl2, hn2, hb2⟩ := update_account_ok_spec hnodup2 h
                refine ⟨by rw [ht2, ht1], ?_, ?_⟩
                · intro htrue
                  cases htrue
                · intro _
                  refine ⟨from_acc, hfrom, ?_⟩
                  have haddr' : from_acc'.address = pt.from_address := by
                    rw [hrec]; exact hfromaddr
                  rw [← haddr', hg2', hrec]

/-- Counterexample to C6 as stated: a pending self-transfer (`from_address =
to_address = 1`) holding a 5-unit lot is confirmed; the call returns `Ok`,
yet the resolved account does **not** receive the held lots — the stale
from-record write overwrites the merged to-record, so the account keeps
balance 5 instead of the claimed merge result with balance 10. -/
theorem transfer_resolution_counterexample :
    (Db.complete_transfer
        ⟨[⟨1, "A", 0, 5, [⟨0, ⟨1, 1, .NotAvailable⟩, 5⟩]⟩], [],
         [⟨7, 1, 1, [⟨2, ⟨2, 1, .NotAvailable⟩, 5⟩]⟩], [], [], 3⟩ 7 true).1 =
      .ok () ∧
    (Db.complete_transfer
        ⟨[⟨1, "A", 0, 5, [⟨0, ⟨1, 1, .NotAvailable⟩, 5⟩]⟩], [],
         [⟨7, 1, 1, [⟨2, ⟨2, 1, .NotAvailable⟩, 5⟩]⟩], [], [], 3⟩ 7 true).2.get_account 1 =
      some ⟨1, "A", 0, 5, [⟨0, ⟨1, 1, .NotAvailable⟩, 5⟩]⟩ ∧
    ¬ (Db.complete_transfer
        ⟨[⟨1, "A", 0, 5, [⟨0, ⟨1, 1, .NotAvailable⟩, 5⟩]⟩], [],
         [⟨7, 1, 1, [⟨2, ⟨2, 1, .NotAvailable⟩, 5⟩]⟩], [], [], 3⟩ 7 true).2.get_account 1 =
      some ⟨1, "A", 0, 10,
        [⟨0, ⟨1, 1, .NotAvailable⟩, 5⟩, ⟨2, ⟨2, 1, .NotAvailable⟩, 5⟩]⟩ := by
  decide

/-- Witness for the amended C6 at a concrete input: confirming a 6-unit
pending transfer from account 1 to account 2 empties the pending list and
merges the lot into account 2. -/
theorem transfer_resolution_witness :
    Db.complete_transfer
        ⟨[⟨1, "A", 0, 0, []⟩, ⟨2, "B", 0, 3, [⟨0, ⟨1, 1, .NotAvailable⟩, 3⟩]⟩], [],
         [⟨7, 1, 2, [⟨4, ⟨2, 1, .NotAvailable⟩, 6⟩]⟩], [], [], 5⟩ 7 true =
      (.ok (),
       ⟨[⟨2, "B", 0, 9, [⟨0, ⟨1, 1, .NotAvailable⟩, 3⟩, ⟨4, ⟨2, 1, .NotAvailable⟩, 6⟩]⟩,
         ⟨1, "A", 0, 0, []⟩], [], [], [], [], 5⟩) ∧
    (∃ to_acc,
      Db.get_account
        ⟨[⟨1, "A", 0, 0, []⟩, ⟨2, "B", 0, 3, [⟨0, ⟨1, 1, .NotAvailable⟩, 3⟩]⟩], [],
         [⟨7, 1, 2, [⟨4, ⟨2, 1, .NotAvailable⟩, 6⟩]⟩], [], [], 5⟩ 2 = some to_acc ∧
      Db.get_account
        ⟨[⟨2, "B", 0, 9, [⟨0, ⟨1, 1, .NotAvailable⟩, 3⟩, ⟨4, ⟨2, 1, .NotAvailable⟩, 6⟩]⟩,
          ⟨1, "A", 0, 0, []⟩], [], [], [], [], 5⟩ 2 =
        some { to_acc with
                lots := [(⟨4, ⟨2, 1, .NotAvailable⟩, 6⟩ : Lot)].foldl addLot to_acc.lots,
                last_update_balance :=
                  to_acc.last_update_balance +
                    lotBalance [⟨4, ⟨2, 1, .NotAvailable⟩, 6⟩] }) := by
  refine ⟨by decide, ?_⟩
  have h := (transfer_resolution
      ⟨[⟨1, "A", 0, 0, []⟩, ⟨2, "B", 0, 3, [⟨0, ⟨1, 1, .NotAvailable⟩, 3⟩]⟩], [],
       [⟨7, 1, 2, [⟨4, ⟨2, 1, .NotAvailable⟩, 6⟩]⟩], [], [], 5⟩ 7 true (by decide)).2
      ⟨7, 1, 2, [⟨4, ⟨2, 1, .NotAvailable⟩, 6⟩]⟩ (by decide)
      ⟨[⟨2, "B", 0, 9, [⟨0, ⟨1, 1, .NotAvailable⟩, 3⟩, ⟨4, ⟨2, 1, .NotAvailable⟩, 6⟩]⟩,
        ⟨1, "A", 0, 0, []⟩], [], [], [], [], 5⟩ (by decide)
  exact h.2.1 rfl (by decide)

/-- C9 — Order resolution: resolving an id carried by no open order fails
with `OpenOrderDoesNotExist` and leaves the store unchanged; otherwise every
open order with that id is removed and, for the first match `o`: with fill
info `(price, date)` each of `o`'s lots becomes a `DisposedLot` with that
date and price and kind `Usd` carrying the order's exchange, pair and id,
appended to the disposed-lot record; without fill info the lots are merged
back into the `deposit_address` account (balance up by exactly their total)
and no `DisposedLot` is created. -/
theorem order_resolution (db : Db) (order_id : String)
    (filled : Option (Int × Nat)) (hnodup : addrNodup db.accounts) :
    ((∀ o ∈ db.orders, o.order_id ≠ order_id) →
      db.complete_order order_id filled =
        (.fail (.OpenOrderDoesNotExist order_id), db)) ∧
    (∀ o, db.orders.find? (fun p => p.order_id == order_id) = some o →
      (∀ price when, filled = some (price, when) →
        db.complete_order order_id filled =
          (.ok (),
           { db with
               orders := db.orders.filter (fun p => p.order_id != order_id),
               disposed_lots := db.disposed_lots ++
                 o.lots.map (fun lot =>
                   ⟨lot, when, price, .Usd o.exchange o.pair o.order_id⟩) })) ∧
      (filled = none →
        ∀ db', db.complete_order order_id none = (.ok (), db') →
          db'.orders = db.orders.filter (fun p => p.order_id != order_id) ∧
          db'.disposed_lots = db.disposed_lots ∧
          ∃ dep, db.get_account o.deposit_address = some dep ∧
            db'.get_account o.deposit_address =
              some { dep with
                      lots := o.lots.foldl addLot dep.lots,
                      last_update_balance :=
                        dep.last_update_balance + lotBalance o.lots })) := by
  constructor
  · intro hnone
    have hfind : db.orders.find? (fun p => p.order_id == order_id) = none := by
      rw [List.find?_eq_none]
      intro o ho
      simpa using hnone o ho
    unfold Db.complete_order
    rw [hfind]
  · intro o hfind
    constructor
    · intro price when hf
      subst hf
      unfold Db.complete_order
      rw [hfind]
    · intro hf db' h
      unfold Db.complete_order at h
      rw [hfind] at h
      simp only [Db.get_account] at h
      cases hdep : findAccount o.deposit_address db.accounts with
      | none => rw [hdep] at h; simp at h
      | some dep =>
        rw [hdep] at h
        simp only [] at h
        cases hm : dep.merge_lots o.lots with
        | fatal => rw [hm] at h; simp at h
        | fail e => rw [hm] at h; simp at h
        | ok dep' =>
          rw [hm] at h
          simp only [] at h
          obtain ⟨hrec, hcons', hbal', hacq'⟩ := merge_lots_ok_inv hm
          have hnodup1 : addrNodup ({ db with orders := db.orders.filter (fun p => p.order_id != order_id) } : Db).accounts := hnodup
          obtain ⟨cur, hg, hg', hother, hnodup2, hmem, hsum, hd, ht, ho2, hdl, hn, hb⟩ :=
            update_account_ok_spec hnodup1 h
          have hdaddr : dep.address = o.deposit_address := findAccount_address hdep
          have haddr' : dep'.address = o.deposit_address := by
            rw [hrec]; exact hdaddr
          refine ⟨by rw [ho2], by rw [hdl], dep, hdep, ?_⟩
          rw [← haddr', hg', hrec]

/-- Witness for C9: the spec's scenarios.  An open order of 200 units is
cancelled — the deposit account regains exactly 200 units and no
`DisposedLot` is created; the same order confirmed filled at price 25 on
2022-06-01 turns its lot into a `DisposedLot` carrying that price, date and
the order id, and removes the order. -/
theorem order_resolution_witness :
    (Db.complete_order
        ⟨[⟨5, "D", 0, 1, [⟨0, ⟨1, 1, .NotAvailable⟩, 1⟩]⟩], [], [],
         [⟨2, "SOLUSD", "ord1", [⟨3, ⟨4, 9, .NotAvailable⟩, 200⟩], 5⟩], [], 6⟩
        "ord1" none =
      (.ok (),
       ⟨[⟨5, "D", 0, 201,
          [⟨0, ⟨1, 1, .NotAvailable⟩, 1⟩, ⟨3, ⟨4, 9, .NotAvailable⟩, 200⟩]⟩],
        [], [], [], [], 6⟩)) ∧
    (Db.complete_order
        ⟨[⟨5, "D", 0, 1, [⟨0, ⟨1, 1, .NotAvailable⟩, 1⟩]⟩], [], [],
         [⟨2, "SOLUSD", "ord1", [⟨3, ⟨4, 9, .NotAvailable⟩, 200⟩], 5⟩], [], 6⟩
        "ord1" (some (25, 20220601)) =
      (.ok (),
       { (⟨[⟨5, "D", 0, 1, [⟨0, ⟨1, 1, .NotAvailable⟩, 1⟩]⟩], [], [],
           [⟨2, "SOLUSD", "ord1", [⟨3, ⟨4, 9, .NotAvailable⟩, 200⟩], 5⟩], [], 6⟩ : Db) with
           orders := ([⟨2, "SOLUSD", "ord1", [⟨3, ⟨4, 9, .NotAvailable⟩, 200⟩], 5⟩] :
             List OpenOrder).filter (fun p => p.order_id != "ord1"),
           disposed_lots := ([] : List DisposedLot) ++
             ([⟨3, ⟨4, 9, .NotAvailable⟩, 200⟩] : List Lot).map (fun lot =>
               ⟨lot, 20220601, 25, .Usd 2 "SOLUSD" "ord1"⟩) })) := by
  constructor
  · decide
  · exact ((order_resolution
      ⟨[⟨5, "D", 0, 1, [⟨0, ⟨1, 1, .NotAvailable⟩, 1⟩]⟩], [], [],
       [⟨2, "SOLUSD", "ord1", [⟨3, ⟨4, 9, .NotAvailable⟩, 200⟩], 5⟩], [], 6⟩
      "ord1" (some (25, 20220601)) (by decide)).2
      ⟨2, "SOLUSD", "ord1", [⟨3, ⟨4, 9, .NotAvailable⟩, 200⟩], 5⟩ (by decide)).1
      25 20220601 rfl

/-! ## Inversion lemmas for the lifecycle operations -/

/-- Inversion of a successful extraction (no consistency assumption on the
input account). -/
theorem extract_lots_ok_inv {a : TrackedAccount} {n amount : Nat}
    {a' : TrackedAccount} {ext : List Lot} {n' : Nat}
    (h : a.extract_lots n amount = .ok (a', ext, n')) :
    a'.address = a.address ∧
    a'.description = a.description ∧
    a'.last_update_epoch = a.last_update_epoch ∧
    amount ≤ a.last_update_balance ∧
    a'.last_update_balance = a.last_update_balance - amount ∧
    lotBalance ext = amount ∧
    lotBalance a'.lots + lotBalance ext = lotBalance a.lots ∧
    (∀ acq, acqBalance a'.lots acq + acqBalance ext acq = acqBalance a.lots acq) ∧
    a'.consistent := by
  unfold TrackedAccount.extract_lots at h
  split at h
  next hlt => simp at h
  next hlt =>
    simp only [] at h
    split at h
    next hext =>
      split at h
      next hcons =>
        cases h
        have hperm : (rotateOldestToEnd (sortLotsByDate a.lots)).Perm a.lots :=
          (rotateOldestToEnd_perm _).trans (sortLotsByDate_perm _)
        refine ⟨rfl, rfl, rfl, by omega, rfl, hext, ?_, ?_, hcons⟩
        · rw [lotBalance_sort, lotBalance_sort]
          have h2 := extractLoop_total
            (rotateOldestToEnd (sortLotsByDate a.lots)) amount n
          rw [lotBalance_perm hperm] at h2
          exact h2
        · intro acq
          rw [acqBalance_sort, acqBalance_sort]
          have h4 := extractLoop_acqBalance
            (rotateOldestToEnd (sortLotsByDate a.lots)) amount n acq
          rw [acqBalance_perm hperm acq] at h4
          exact h4
      next hcons => simp at h
    next hext => simp at h

/-- Inversion of a successful `record_transfer`: the two account lookups,
the extraction, the new pending-transfer entry, and the effect on the store.
Requires pairwise-distinct stored addresses. -/
theorem record_transfer_ok_inv {db : Db} {s f : Nat} {amt : Option Nat}
    {t : Nat} {db' : Db} (hnodup : addrNodup db.accounts)
    (h : db.record_transfer s f amt t = (.ok (), db')) :
    ∃ from_acc from_acc' extracted n',
      db.get_account f = some from_acc ∧
      (db.get_account t).isSome ∧
      from_acc.extract_lots db.next_lot_number
        (amt.getD from_acc.last_update_balance) = .ok (from_acc', extracted, n') ∧
      db'.transfers = db.transfers ++ [⟨s, f, t, extracted⟩] ∧
      db'.deposits = db.deposits ∧
      db'.orders = db.orders ∧
      db'.disposed_lots = db.disposed_lots ∧
      db'.next_lot_number = n' ∧
      addrNodup db'.accounts ∧
      accountsBalance db'.accounts + lotBalance extracted =
        accountsBalance db.accounts ∧
      db'.get_account f = some from_acc' ∧
      (∀ addr, addr ≠ f → db'.get_account addr = db.get_account addr) ∧
      ((∀ x ∈ db.accounts, x.consistent) → ∀ x ∈ db'.accounts, x.consistent) := by
  unfold Db.record_transfer at h
  cases hfrom : findAccount f db.accounts with
  | none =>
    rw [show db.get_account f = findAccount f db.accounts from rfl, hfrom] at h
    simp at h
  | some from_acc =>
    rw [show db.get_account f = findAccount f db.accounts from rfl, hfrom] at h
    simp only [] at h
    cases hto : findAccount t db.accounts with
    | none =>
      rw [show db.get_account t = findAccount t db.accounts from rfl, hto] at h
      simp at h
    | some to_acc =>
      rw [show db.get_account t = findAccount t db.accounts from rfl, hto] at h
      simp only [] at h
      cases hex : from_acc.extract_lots db.next_lot_number
          (amt.getD from_acc.last_update_balance) with
      | fatal => rw [hex] at h; simp at h
      | fail e => rw [hex] at h; simp at h
      | ok out =>
        obtain ⟨from_acc', extracted, n'⟩ := out
        rw [hex] at h
        simp only [] at h
        obtain ⟨haddr, hdesc, hepoch, hle, hbal, hextbal, htotal, hacq, hcons'⟩ :=
          extract_lots_ok_inv hex
        have hfromaddr : from_acc.address = f := findAccount_address hfrom
        have hnodup1 : addrNodup ({ db with next_lot_number := n', transfers := db.transfers ++ [⟨s, f, t, extracted⟩] } : Db).accounts := hnodup
        obtain ⟨cur, hg, hg', hother, hnodup2, hmem, hsum, hd, ht2, ho2, hdl, hn, hb⟩ :=
          update_account_ok_spec hnodup1 h
        have hcur : cur = from_acc := by
          have h2 : findAccount from_acc'.address db.accounts = some cur := hg
          rw [haddr, hfromaddr, hfrom] at h2
          exact (Option.some.inj h2).symm
        have htsome : (db.get_account t).isSome := by
          unfold Db.get_account
          rw [hto]
          rfl
        refine ⟨from_acc, from_acc', extracted, n', hfrom, htsome, hex,
          by rw [ht2], by rw [hd], by rw [ho2], by rw [hdl], by rw [hn], hnodup2, ?_, ?_, ?_, ?_⟩
        · have hsum' : accountsBalance db'.accounts + lotBalance from_acc.lots =
              accountsBalance db.accounts + lotBalance from_acc'.lots := by
            rw [← hcur]
            exact hsum
          omega
        · have := hg'
          rw [haddr, hfromaddr] at this
          exact this
        · intro addr haddr2
          have := hother addr (by rw [haddr, hfromaddr]; exact haddr2)
          exact this
        · intro hall x hx
          rcases hmem x hx with hx' | hx'
          · exact hall x hx'
          · rw [hx']
            exact hcons'

/-- Removing every transfer matching a signature that matches at most one
entry removes exactly the lots of the found entry. -/
theorem transfers_filter_sum (l : List PendingTransfer) (s : Nat)
    (x : PendingTransfer)
    (hfind : l.find? (fun p => p.signature == s) = some x)
    (hcount : l.countP (fun p => p.signature == s) ≤ 1) :
    transfersBalance (l.filter (fun p => p.signature != s)) + lotBalance x.lots =
      transfersBalance l := by
  induction l with
  | nil => simp [List.find?] at hfind
  | cons a rest ih =>
    by_cases ha : a.signature = s
    · have hx : x = a := by
        rw [List.find?_cons_of_pos _ (by simp [ha])] at hfind
        exact (Option.some.inj hfind).symm
      have hcount0 : rest.countP (fun p => p.signature == s) = 0 := by
        rw [List.countP_cons_of_pos _ _ (by simp [ha])] at hcount
        omega
      have hrest : rest.filter (fun p => p.signature != s) = rest := by
        rw [List.filter_eq_self]
        intro b hb
        have hb' := List.countP_eq_zero.1 hcount0 b hb
        simpa using hb'
      rw [List.filter_cons_of_neg (by simp [ha]), hrest, hx]
      simp [transfersBalance]
      omega
    · rw [List.find?_cons_of_neg _ (by simp [ha])] at hfind
      rw [List.countP_cons_of_neg _ _ (by simp [ha])] at hcount
      rw [List.filter_cons_of_pos (by simp [ha])]
      have := ih hfind hcount
      simp only [transfersBalance, List.map_cons, List.sum_cons] at this ⊢
      omega

/-- Removing every open order matching an id that matches at most one entry
removes exactly the lots of the found entry. -/
theorem orders_filter_sum (l : List OpenOrder) (i : String) (x : OpenOrder)
    (hfind : l.find? (fun p => p.order_id == i) = some x)
    (hcount : l.countP (fun p => p.order_id == i) ≤ 1) :
    ordersBalance (l.filter (fun p => p.order_id != i)) + lotBalance x.lots =
      ordersBalance l := by
  induction l with
  | nil => simp [List.find?] at hfind
  | cons a rest ih =>
    by_cases ha : a.order_id = i
    · have hx : x = a := by
        rw [List.find?_cons_of_pos _ (by simp [ha])] at hfind
        exact (Option.some.inj hfind).symm
      have hcount0 : rest.countP (fun p => p.order_id == i) = 0 := by
        rw [List.countP_cons_of_pos _ _ (by simp [ha])] at hcount
        omega
      have hrest : rest.filter (fun p => p.order_id != i) = rest := by
        rw [List.filter_eq_self]
        intro b hb
        have hb' := List.countP_eq_zero.1 hcount0 b hb
        simpa using hb'
      rw [List.filter_cons_of_neg (by simp [ha]), hrest, hx]
      simp [ordersBalance]
      omega
    · rw [List.find?_cons_of_neg _ (by simp [ha])] at hfind
      rw [List.countP_cons_of_neg _ _ (by simp [ha])] at hcount
      rw [List.filter_cons_of_pos (by simp [ha])]
      have := ih hfind hcount
      simp only [ordersBalance, List.map_cons, List.sum_cons] at this ⊢
      omega

/-- Comprehensive inversion of a successful `complete_transfer`. -/
theorem complete_transfer_ok_inv {db : Db} {s : Nat} {success : Bool}
    {db' : Db} (hnodup : addrNodup db.accounts)
    (h : db.complete_transfer s success = (.ok (), db')) :
    ∃ pt from_acc to_acc,
      db.transfers.find? (fun p => p.signature == s) = some pt ∧
      db.get_account pt.from_address = some from_acc ∧
      db.get_account pt.to_address = some to_acc ∧
      db'.transfers = db.transfers.filter (fun p => p.signature != s) ∧
      db'.deposits = db.deposits ∧
      db'.orders = db.orders ∧
      db'.disposed_lots = db.disposed_lots ∧
      db'.next_lot_number = db.next_lot_number ∧
      addrNodup db'.accounts ∧
      ((∀ x ∈ db.accounts, x.consistent) → ∀ x ∈ db'.accounts, x.consistent) ∧
      ((success = false ∨ pt.from_address ≠ pt.to_address) →
        accountsBalance db'.accounts =
          accountsBalance db.accounts + lotBalance pt.lots) ∧
      (success = false →
        db'.get_account pt.from_address =
          some { from_acc with
                  lots := pt.lots.foldl addLot from_acc.lots,
                  last_update_balance :=
                    from_acc.last_update_balance + lotBalance pt.lots }) := by
  unfold Db.complete_transfer at h
  cases hfind : db.transfers.find? (fun p => p.signature == s) with
  | none => rw [hfind] at h; simp at h
  | some pt =>
    rw [hfind] at h
    simp only [Db.get_account] at h
    cases hfrom : findAccount pt.from_address db.accounts with
    | none => rw [hfrom] at h; simp at h
    | some from_acc =>
      rw [hfrom] at h
      simp only [] at h
      cases hto : findAccount pt.to_address db.accounts with
      | none => rw [hto] at h; simp at h
      | some to_acc =>
        rw [hto] at h
        simp only [] at h
        have hfromaddr : from_acc.address = pt.from_address := findAccount_address hfrom
        have htoaddr : to_acc.address = pt.to_address := findAccount_address hto
        have hfrommem : from_acc ∈ db.accounts := findAccount_mem hfrom
        have htomem : to_acc ∈ db.accounts := findAccount_mem hto
        have halias_eq : pt.from_address = pt.to_address → from_acc = to_acc := by
          intro halias
          rw [halias, hto] at hfrom
          exact (Option.some.inj hfrom).symm
        have hnodup1 : addrNodup ({ db with transfers := db.transfers.filter (fun p => p.signature != s) } : Db).accounts := hnodup
        cases success with
        | true =>
          rw [if_pos rfl] at h
          cases hm : to_acc.merge_lots pt.lots with
          | fatal => rw [hm] at h; simp at h
          | fail e => rw [hm] at h; simp at h
          | ok to_acc' =>
            rw [hm] at h
            simp only [] at h
            obtain ⟨hrec, hcons', hbal', hacq'⟩ := merge_lots_ok_inv hm
            have htoaddr' : to_acc'.address = pt.to_address := by
              rw [hrec]; exact htoaddr
            cases hu1 : Db.update_account { db with transfers := db.transfers.filter (fun p => p.signature != s) } to_acc' with
            | mk r1 db2 =>
              rw [hu1] at h
              cases r1 with
              | fatal => simp only [] at h; simp at h
              | fail e => simp only [] at h; simp at h
              | ok u =>
                cases u
                simp only [] at h
                obtain ⟨cur1, hg1, hg1', hother1, hnodup2, hmem1, hsum1, hd1, ht1,
                    ho1, hdl1, hn1, hb1⟩ := update_account_ok_spec hnodup1 hu1
                obtain ⟨cur2, hg2, hg2', hother2, hnodup3, hmem2, hsum2, hd2, ht2,
                    ho2, hdl2, hn2, hb2⟩ := update_account_ok_spec hnodup2 h
                have hcur1 : cur1 = to_acc := by
                  have h2 : findAccount to_acc'.address db.accounts = some cur1 := hg1
                  rw [htoaddr', hto] at h2
                  exact (Option.some.inj h2).symm
                refine ⟨pt, from_acc, to_acc, rfl, hfrom, hto,
                  by rw [ht2, ht1], by rw [hd2, hd1], by rw [ho2, ho1],
                  by rw [hdl2, hdl1], by rw [hn2, hn1], hnodup3, ?_, ?_, ?_⟩
                · intro hall x hx
                  rcases hmem2 x hx with hx' | hx'
                  · rcases hmem1 x hx' with hx'' | hx''
                    · exact hall x hx''
                    · rw [hx'']
                      exact hcons'
                  · rw [hx']
                    exact hall from_acc hfrommem
                · rintro (hfalse | hne)
                  · cases hfalse
                  · have hcur2 : cur2 = from_acc := by
                      have h2 : db2.get_account from_acc.address = some cur2 := hg2
                      rw [hfromaddr] at h2
                      rw [hother1 pt.from_address (by rw [htoaddr']; exact hne)] at h2
                      have h3 : findAccount pt.from_address db.accounts = some cur2 := h2
                      rw [hfrom] at h3
                      exact (Option.some.inj h3).symm
                    rw [hcur1] at hsum1
                    rw [hcur2] at hsum2
                    have hsum1' : accountsBalance db2.accounts + lotBalance to_acc.lots =
                        accountsBalance db.accounts + lotBalance to_acc'.lots := hsum1
                    have hbal2 : lotBalance to_acc'.lots =
                        lotBalance to_acc.lots + lotBalance pt.lots := hbal'
                    omega
                · intro hfalse
                  cases hfalse
        | false =>
          rw [if_neg Bool.false_ne_true] at h
          cases hm : from_acc.merge_lots pt.lots with
          | fatal => rw [hm] at h; simp at h
          | fail e => rw [hm] at h; simp at h
          | ok from_acc' =>
            rw [hm] at h
            simp only [] at h
            obtain ⟨hrec, hcons', hbal', hacq'⟩ := merge_lots_ok_inv hm
            have hfromaddr' : from_acc'.address = pt.from_address := by
              rw [hrec]; exact hfromaddr
            cases hu1 : Db.update_account { db with transfers := db.transfers.filter (fun p => p.signature != s) } to_acc with
            | mk r1 db2 =>
              rw [hu1] at h
              cases r1 with
              | fatal => simp only [] at h; simp at h
              | fail e => simp only [] at h; simp at h
              | ok u =>
                cases u
                simp only [] at h
                obtain ⟨cur1, hg1, hg1', hother1, hnodup2, hmem1, hsum1, hd1, ht1,
                    ho1, hdl1, hn1, hb1⟩ := update_account_ok_spec hnodup1 hu1
                obtain ⟨cur2, hg2, hg2', hother2, hnodup3, hmem2, hsum2, hd2, ht2,
                    ho2, hdl2, hn2, hb2⟩ := update_account_ok_spec hnodup2 h
                have hcur1 : cur1 = to_acc := by
                  have h2 : findAccount to_acc.address db.accounts = some cur1 := hg1
                  rw [htoaddr, hto] at h2
                  exact (Option.some.inj h2).symm
                have hcur2 : cur2 = from_acc := by
                  by_cases halias : pt.from_address = pt.to_address
                  · have hfa : from_acc = to_acc := halias_eq halias
                    have h2 : db2.get_account from_acc'.address = some cur2 := hg2
                    rw [hfromaddr', halias, ← htoaddr] at h2
                    rw [hg1'] at h2
                    rw [hfa]
                    exact (Option.some.inj h2).symm
                  · have h2 : db2.get_account from_acc'.address = some cur2 := hg2
                    rw [hfromaddr'] at h2
                    rw [hother1 pt.from_address (by rw [htoaddr]; exact halias)] at h2
                    have h3 : findAccount pt.from_address db.accounts = some cur2 := h2
                    rw [hfrom] at h3
                    exact (Option.some.inj h3).symm
                refine ⟨pt, from_acc, to_acc, rfl, hfrom, hto,
                  by rw [ht2, ht1], by rw [hd2, hd1], by rw [ho2, ho1],
                  by rw [hdl2, hdl1], by rw [hn2, hn1], hnodup3, ?_, ?_, ?_⟩
                · intro hall x hx
                  rcases hmem2 x hx with hx' | hx'
                  · rcases hmem1 x hx' with hx'' | hx''
                    · exact hall x hx''
                    · rw [hx'']
                      exact hall to_acc htomem
                  · rw [hx']
                    exact hcons'
                · intro _
                  rw [hcur1] at hsum1
                  rw [hcur2] at hsum2
                  have hsum1' : accountsBalance db2.accounts + lotBalance to_acc.lots =
                      accountsBalance db.accounts + lotBalance to_acc.lots := hsum1
                  have hbal2 : lotBalance from_acc'.lots =
                      lotBalance from_acc.lots + lotBalance pt.lots := hbal'
                  omega
                · intro _
                  have hfin : db'.get_account from_acc'.address = some from_acc' := hg2'
                  rw [hfromaddr'] at hfin
                  rw [hfin, hrec]

theorem disposedBalance_map (lots : List Lot) (price : Int) (when : Nat)
    (kind : LotDisposalKind) :
    disposedBalance (lots.map (fun lot => ⟨lot, when, price, kind⟩)) =
      lotBalance lots := by
  unfold disposedBalance lotBalance
  rw [List.map_map]
  rfl

/-- Comprehensive inversion of a successful `complete_order`: the fill and
cancel branches agree that the found order's lots move from the open-order
record into, respectively, the disposed-lot record or the deposit account. -/
theorem complete_order_ok_inv {db : Db} {i : String}
    {filled : Option (Int × Nat)} {db' : Db} (hnodup : addrNodup db.accounts)
    (h : db.complete_order i filled = (.ok (), db')) :
    ∃ o, db.orders.find? (fun p => p.order_id == i) = some o ∧
      db'.orders = db.orders.filter (fun p => p.order_id != i) ∧
      db'.deposits = db.deposits ∧
      db'.transfers = db.transfers ∧
      db'.next_lot_number = db.next_lot_number ∧
      addrNodup db'.accounts ∧
      ((∀ x ∈ db.accounts, x.consistent) → ∀ x ∈ db'.accounts, x.consistent) ∧
      accountsBalance db'.accounts + disposedBalance db'.disposed_lots =
        accountsBalance db.accounts + disposedBalance db.disposed_lots +
          lotBalance o.lots := by
  unfold Db.complete_order at h
  cases hfind : db.orders.find? (fun p => p.order_id == i) with
  | none => rw [hfind] at h; simp at h
  | some o =>
    rw [hfind] at h
    simp only [] at h
    cases filled with
    | some pw =>
      obtain ⟨price, when⟩ := pw
      simp only [] at h
      cases h
      refine ⟨o, rfl, rfl, rfl, rfl, rfl, hnodup, fun hall => hall, ?_⟩
      show accountsBalance db.accounts +
          disposedBalance (db.disposed_lots ++
            o.lots.map (fun lot => ⟨lot, when, price, .Usd o.exchange o.pair o.order_id⟩)) = _
      rw [disposedBalance_append, disposedBalance_map]
      omega
    | none =>
      simp only [Db.get_account] at h
      cases hdep : findAccount o.deposit_address db.accounts with
      | none => rw [hdep] at h; simp at h
      | some dep =>
        rw [hdep] at h
        simp only [] at h
        cases hm : dep.merge_lots o.lots with
        | fatal => rw [hm] at h; simp at h
        | fail e => rw [hm] at h; simp at h
        | ok dep' =>
          rw [hm] at h
          simp only [] at h
          obtain ⟨hrec, hcons', hbal', hacq'⟩ := merge_lots_ok_inv hm
          have hdaddr : dep.address = o.deposit_address := findAccount_address hdep
          have hdaddr' : dep'.address = o.deposit_address := by
            rw [hrec]; exact hdaddr
          have hdepmem : dep ∈ db.accounts := findAccount_mem hdep
          have hnodup1 : addrNodup ({ db with orders := db.orders.filter (fun p => p.order_id != i) } : Db).accounts := hnodup
          obtain ⟨cur, hg, hg', hother, hnodup2, hmem, hsum, hd, ht, ho2, hdl, hn, hb⟩ :=
            update_account_ok_spec hnodup1 h
          have hcur : cur = dep := by
            have h2 : findAccount dep'.address db.accounts = some cur := hg
            rw [hdaddr', hdep] at h2
            exact (Option.some.inj h2).symm
          refine ⟨o, rfl, by rw [ho2], by rw [hd], by rw [ht], by rw [hn],
            hnodup2, ?_, ?_⟩
          · intro hall x hx
            rcases hmem x hx with hx' | hx'
            · exact hall x hx'
            · rw [hx']
              exact hcons'
          · rw [hcur] at hsum
            have hsum' : accountsBalance db'.accounts + lotBalance dep.lots =
                accountsBalance db.accounts + lotBalance dep'.lots := hsum
            have hdl' : db'.disposed_lots = db.disposed_lots := by rw [hdl]
            rw [hdl']
            have hbal2 : lotBalance dep'.lots =
                lotBalance dep.lots + lotBalance o.lots := hbal'
            omega

/-- Inversion of a successful `record_order_extracting`. -/
theorem record_order_extracting_ok_inv {db : Db} {d amount e : Nat}
    {pair i : String} {db' : Db} (hnodup : addrNodup db.accounts)
    (h : db.record_order_extracting d amount e pair i = (.ok (), db')) :
    ∃ dep dep' lots n',
      db.get_account d = some dep ∧
      dep.extract_lots db.next_lot_number amount = .ok (dep', lots, n') ∧
      db'.orders = db.orders ++ [⟨e, pair, i, lots, dep'.address⟩] ∧
      db'.deposits = db.deposits ∧
      db'.transfers = db.transfers ∧
      db'.disposed_lots = db.disposed_lots ∧
      db'.next_lot_number = n' ∧
      addrNodup db'.accounts ∧
      ((∀ x ∈ db.accounts, x.consistent) → ∀ x ∈ db'.accounts, x.consistent) ∧
      accountsBalance db'.accounts + lotBalance lots =
        accountsBalance db.accounts := by
  unfold Db.record_order_extracting at h
  cases hdep : findAccount d db.accounts with
  | none =>
    rw [show db.get_account d = findAccount d db.accounts from rfl, hdep] at h
    simp at h
  | some dep =>
    rw [show db.get_account d = findAccount d db.accounts from rfl, hdep] at h
    simp only [] at h
    cases hex : dep.extract_lots db.next_lot_number amount with
    | fatal => rw [hex] at h; simp at h
    | fail e2 => rw [hex] at h; simp at h
    | ok out =>
      obtain ⟨dep', lots, n'⟩ := out
      rw [hex] at h
      unfold Db.record_order at h
      simp only [] at h
      obtain ⟨haddr, hdesc, hepoch, hle, hbal, hextbal, htotal, hacq, hcons'⟩ :=
        extract_lots_ok_inv hex
      have hdaddr : dep.address = d := findAccount_address hdep
      have hnodup1 : addrNodup ({ db with next_lot_number := n', orders := db.orders ++ [⟨e, pair, i, lots, dep'.address⟩] } : Db).accounts := hnodup
      obtain ⟨cur, hg, hg', hother, hnodup2, hmem, hsum, hd, ht, ho2, hdl, hn, hb⟩ :=
        update_account_ok_spec hnodup1 h
      have hcur : cur = dep := by
        have h2 : findAccount dep'.address db.accounts = some cur := hg
        rw [haddr, hdaddr, hdep] at h2
        exact (Option.some.inj h2).symm
      refine ⟨dep, dep', lots, n', hdep, hex, by rw [ho2], by rw [hd], by rw [ht],
        by rw [hdl], by rw [hn], hnodup2, ?_, ?_⟩
      · intro hall x hx
        rcases hmem x hx with hx' | hx'
        · exact hall x hx'
        · rw [hx']
          exact hcons'
      · rw [hcur] at hsum
        have hsum' : accountsBalance db'.accounts + lotBalance dep.lots =
            accountsBalance db.accounts + lotBalance dep'.lots := hsum
        omega

/-! ## The public operations as a step relation -/

/-- The public record/resolve/account operations of the ledger facade. -/
inductive Op : Type where
  | record_transfer (signature from_address : Nat) (amount : Option Nat)
      (to_address : Nat)
  | record_deposit (signature from_address amount exchange deposit_address : Nat)
  | record_order (deposit_address amount exchange : Nat) (pair order_id : String)
  | confirm_transfer (signature : Nat)
  | cancel_transfer (signature : Nat)
  | confirm_deposit (signature : Nat)
  | cancel_deposit (signature : Nat)
  | confirm_order (order_id : String) (price : Int) (when : Nat)
  | cancel_order (order_id : String)
  | add_account (account : TrackedAccount)
  | update_account (account : TrackedAccount)
  | remove_account (address : Nat)
deriving DecidableEq, Repr

/-- Dispatch an operation against the store. -/
def Op.step : Op → Db → Res Unit × Db
  | .record_transfer s f amt t, db => db.record_transfer s f amt t
  | .record_deposit s f a e d, db => db.record_deposit s f a e d
  | .record_order d a e pair i, db => db.record_order_extracting d a e pair i
  | .confirm_transfer s, db => db.confirm_transfer s
  | .cancel_transfer s, db => db.cancel_transfer s
  | .confirm_deposit s, db => db.confirm_deposit s
  | .cancel_deposit s, db => db.cancel_deposit s
  | .confirm_order i p w, db => db.confirm_order i p w
  | .cancel_order i, db => db.cancel_order i
  | .add_account a, db => db.add_account a
  | .update_account a, db => db.update_account a
  | .remove_account a, db => db.remove_account a

/-- The record/resolve operations of the three lifecycle machines (the class
the conservation claim ranges over; account registration is excluded because
it ingests or evicts quantity by design). -/
def Op.isRecordOrResolve : Op → Bool
  | .add_account _ => false
  | .update_account _ => false
  | .remove_account _ => false
  | _ => true

/-- Resolution-time side condition for a transfer resolution: the signature
matches at most one pending transfer, and on the success outcome the matched
transfer is not a self-transfer. -/
def transferResolutionCond (db : Db) (s : Nat) (success : Bool) : Prop :=
  db.transfers.countP (fun p => p.signature == s) ≤ 1 ∧
  (success = true →
    ∀ pt ∈ db.transfers, pt.signature = s → pt.from_address ≠ pt.to_address)

instance (db : Db) (s : Nat) (success : Bool) :
    Decidable (transferResolutionCond db s success) := by
  unfold transferResolutionCond
  infer_instance

/-- The per-operation side conditions under which the conservation invariant
holds (forced by the counterexample: duplicate pending signatures and
successful self-transfer resolutions violate it). -/
def sideCond : Op → Db → Prop
  | .confirm_transfer s, db => transferResolutionCond db s true
  | .cancel_transfer s, db => transferResolutionCond db s false
  | .confirm_deposit s, db => transferResolutionCond db s true
  | .cancel_deposit s, db => transferResolutionCond db s true
  | .confirm_order i _ _, db => db.orders.countP (fun p => p.order_id == i) ≤ 1
  | .cancel_order i, db => db.orders.countP (fun p => p.order_id == i) ≤ 1
  | _, _ => True

instance (op : Op) (db : Db) : Decidable (sideCond op db) := by
  cases op <;> (unfold sideCond; infer_instance)

/-- Run a sequence of operations, stopping at the first non-`Ok` outcome. -/
def runOps : Db → List Op → Res Unit × Db
  | db, [] => (.ok (), db)
  | db, op :: ops =>
    match op.step db with
    | (.ok _, db1) => runOps db1 ops
    | other => other

/-- The side conditions evaluated along the trace of a run. -/
def sideCondsHold : Db → List Op → Prop
  | _, [] => True
  | db, op :: ops => sideCond op db ∧ sideCondsHold (op.step db).2 ops

instance instDecSideCondsHold : (db : Db) → (ops : List Op) →
    Decidable (sideCondsHold db ops)
  | _, [] => .isTrue trivial
  | db, op :: ops =>
    have : Decidable (sideCondsHold (op.step db).2 ops) :=
      instDecSideCondsHold _ _
    inferInstanceAs (Decidable (_ ∧ _))

/-- One record/resolve step that returns `Ok` under its side condition
preserves the total quantity and the distinctness of stored addresses. -/
theorem step_conserves (op : Op) (db db' : Db)
    (hclass : op.isRecordOrResolve = true)
    (hnodup : addrNodup db.accounts) (hside : sideCond op db)
    (h : op.step db = (.ok (), db')) :
    totalQuantity db' = totalQuantity db ∧ addrNodup db'.accounts := by
  cases op with
  | record_transfer s f amt t =>
    obtain ⟨fa, fa', ext, n', hget, htsome, hex, ht, hd, ho, hdl, hn, hnd,
        hsum, hgetf, hother, hcons⟩ := record_transfer_ok_inv hnodup h
    refine ⟨?_, hnd⟩
    unfold totalQuantity
    rw [ht, ho, hdl, transfersBalance_append]
    have hone : transfersBalance [⟨s, f, t, ext⟩] = lotBalance ext := by
      simp [transfersBalance]
    omega
  | record_deposit s f a e d =>
    have h' : ({ db with deposits := db.deposits ++ [⟨s, e, a⟩] } : Db).record_transfer s f (some a) d = (.ok (), db') := h
    obtain ⟨fa, fa', ext, n', hget, htsome, hex, ht, hd, ho, hdl, hn, hnd,
        hsum, hgetf, hother, hcons⟩ := record_transfer_ok_inv (show addrNodup ({ db with deposits := db.deposits ++ [⟨s, e, a⟩] } : Db).accounts from hnodup) h'
    refine ⟨?_, hnd⟩
    unfold totalQuantity
    have ht' : db'.transfers = db.transfers ++ [⟨s, f, d, ext⟩] := ht
    have ho' : db'.orders = db.orders := ho
    have hdl' : db'.disposed_lots = db.disposed_lots := hdl
    have hsum' : accountsBalance db'.accounts + lotBalance ext =
        accountsBalance db.accounts := hsum
    rw [ht', ho', hdl', transfersBalance_append]
    have hone : transfersBalance [⟨s, f, d, ext⟩] = lotBalance ext := by
      simp [transfersBalance]
    omega
  | record_order d a e pair i =>
    obtain ⟨dep, dep', lots, n', hget, hex, ho, hd, ht, hdl, hn, hnd, hcons,
        hsum⟩ := record_order_extracting_ok_inv hnodup h
    refine ⟨?_, hnd⟩
    unfold totalQuantity
    rw [ho, ht, hdl, ordersBalance_append]
    have hone : ordersBalance [⟨e, pair, i, lots, dep'.address⟩] =
        lotBalance lots := by
      simp [ordersBalance]
    omega
  | confirm_transfer s =>
    obtain ⟨pt, fa, ta, hfind, hfrom, hto, ht, hd, ho, hdl, hn, hnd, hcons,
        hacc, hgetfrom⟩ := complete_transfer_ok_inv hnodup h
    obtain ⟨hcount, hnoalias⟩ := hside
    have hptmem : pt ∈ db.transfers := List.mem_of_find?_eq_some hfind
    have hptsig : pt.signature = s := by
      have := List.find?_some hfind
      simpa using this
    have hacc' := hacc (Or.inr (hnoalias rfl pt hptmem hptsig))
    have hfilter := transfers_filter_sum db.transfers s pt hfind hcount
    refine ⟨?_, hnd⟩
    unfold totalQuantity
    rw [ht, ho, hdl, hacc']
    omega
  | cancel_transfer s =>
    obtain ⟨pt, fa, ta, hfind, hfrom, hto, ht, hd, ho, hdl, hn, hnd, hcons,
        hacc, hgetfrom⟩ := complete_transfer_ok_inv hnodup h
    obtain ⟨hcount, hnoalias⟩ := hside
    have hacc' := hacc (Or.inl rfl)
    have hfilter := transfers_filter_sum db.transfers s pt hfind hcount
    refine ⟨?_, hnd⟩
    unfold totalQuantity
    rw [ht, ho, hdl, hacc']
    omega
  | confirm_deposit s =>
    have hstep : Db.complete_deposit db s true = (.ok (), db') := h
    unfold Db.complete_deposit at hstep
    cases hfd : db.deposits.find? (fun pd => pd.signature == s) with
    | none => rw [hfd] at hstep; simp at hstep
    | some pd =>
      rw [hfd] at hstep
      simp only [] at hstep
      obtain ⟨pt, fa, ta, hfind, hfrom, hto, ht, hd, ho, hdl, hn, hnd, hcons,
          hacc, hgetfrom⟩ := complete_transfer_ok_inv (show addrNodup ({ db with deposits := db.deposits.filter (fun pd => pd.signature != s) } : Db).accounts from hnodup) hstep
      obtain ⟨hcount, hnoalias⟩ := hside
      have hfind' : db.transfers.find? (fun p => p.signature == s) = some pt := hfind
      have hptmem : pt ∈ db.transfers := List.mem_of_find?_eq_some hfind'
      have hptsig : pt.signature = s := by
        have := List.find?_some hfind'
        simpa using this
      have hacc' : accountsBalance db'.accounts =
          accountsBalance db.accounts + lotBalance pt.lots :=
        hacc (Or.inr (hnoalias rfl pt hptmem hptsig))
      have hfilter := transfers_filter_sum db.transfers s pt hfind' hcount
      refine ⟨?_, hnd⟩
      unfold totalQuantity
      have ht' : db'.transfers =
          db.transfers.filter (fun p => p.signature != s) := ht
      have ho' : db'.orders = db.orders := ho
      have hdl' : db'.disposed_lots = db.disposed_lots := hdl
      rw [ht', ho', hdl', hacc']
      omega
  | cancel_deposit s =>
    have hstep : Db.complete_deposit db s true = (.ok (), db') := h
    unfold Db.complete_deposit at hstep
    cases hfd : db.deposits.find? (fun pd => pd.signature == s) with
    | none => rw [hfd] at hstep; simp at hstep
    | some pd =>
      rw [hfd] at hstep
      simp only [] at hstep
      obtain ⟨pt, fa, ta, hfind, hfrom, hto, ht, hd, ho, hdl, hn, hnd, hcons,
          hacc, hgetfrom⟩ := complete_transfer_ok_inv (show addrNodup ({ db with deposits := db.deposits.filter (fun pd => pd.signature != s) } : Db).accounts from hnodup) hstep
      obtain ⟨hcount, hnoalias⟩ := hside
      have hfind' : db.transfers.find? (fun p => p.signature == s) = some pt := hfind
      have hptmem : pt ∈ db.transfers := List.mem_of_find?_eq_some hfind'
      have hptsig : pt.signature = s := by
        have := List.find?_some hfind'
        simpa using this
      have hacc' : accountsBalance db'.accounts =
          accountsBalance db.accounts + lotBalance pt.lots :=
        hacc (Or.inr (hnoalias rfl pt hptmem hptsig))
      have hfilter := transfers_filter_sum db.transfers s pt hfind' hcount
      refine ⟨?_, hnd⟩
      unfold totalQuantity
      have ht' : db'.transfers =
          db.transfers.filter (fun p => p.signature != s) := ht
      have ho' : db'.orders = db.orders := ho
      have hdl' : db'.disposed_lots = db.disposed_lots := hdl
      rw [ht', ho', hdl', hacc']
      omega
  | confirm_order i p w =>
    have h' : db.complete_order i (some (p, w)) = (.ok (), db') := h
    obtain ⟨o, hfind, ho, hd, ht, hn, hnd, hcons, hbal⟩ :=
      complete_order_ok_inv hnodup h'
    have hfilter := orders_filter_sum db.orders i o hfind hside
    refine ⟨?_, hnd⟩
    unfold totalQuantity
    rw [ho, ht]
    omega
  | cancel_order i =>
    have h' : db.complete_order i none = (.ok (), db') := h
    obtain ⟨o, hfind, ho, hd, ht, hn, hnd, hcons, hbal⟩ :=
      complete_order_ok_inv hnodup h'
    have hfilter := orders_filter_sum db.orders i o hfind hside
    refine ⟨?_, hnd⟩
    unfold totalQuantity
    rw [ho, ht]
    omega
  | add_account a => simp [Op.isRecordOrResolve] at hclass
  | update_account a => simp [Op.isRecordOrResolve] at hclass
  | remove_account a => simp [Op.isRecordOrResolve] at hclass

/-- C1 (amended) — Conservation (I2): starting from a store with distinct
account addresses, any sequence of record/resolve operations that all return
`Ok` leaves the total quantity — account lots, plus pending-transfer lots,
plus open-order lots, plus disposed-lot amounts — unchanged, provided each
resolution's signature (or order id) matches at most one pending record and
no successful transfer resolution resolves a self-transfer.  The provisos
are forced by the counterexample: `retain` drops every matching record while
only the first match's lots are re-merged, and a confirmed self-transfer's
merge is overwritten by the stale from-account write. -/
theorem conservation (ops : List Op) (db db' : Db)
    (hclass : ∀ op ∈ ops, op.isRecordOrResolve = true)
    (hnodup : addrNodup db.accounts)
    (hside : sideCondsHold db ops)
    (h : runOps db ops = (.ok (), db')) :
    totalQuantity db' = totalQuantity db := by
  induction ops generalizing db with
  | nil =>
    unfold runOps at h
    injection h with h1 h2
    rw [h2]
  | cons op ops ih =>
    unfold runOps at h
    cases hstep : op.step db with
    | mk r db1 =>
      rw [hstep] at h
      cases r with
      | fatal => simp only [] at h; simp at h
      | fail e => simp only [] at h; simp at h
      | ok u =>
        cases u
        simp only [] at h
        obtain ⟨hside1, hside2⟩ := hside
        have hside2' : sideCondsHold db1 ops := by
          rw [hstep] at hside2
          exact hside2
        obtain ⟨htot, hnd1⟩ := step_conserves op db db1
          (hclass op (List.mem_cons_self _ _)) hnodup hside1 hstep
        have := ih db1 (fun o ho => hclass o (List.mem_cons_of_mem _ ho))
          hnd1 hside2' h
        rw [this, htot]

/-- Counterexample to C1 as stated: recording a 5-unit self-transfer on an
account holding 10 units and then confirming it — two record/resolve
operations both returning `Ok` — destroys the 5 transferred units: the total
quantity drops from 10 to 5. -/
theorem conservation_counterexample :
    (∀ op ∈ [Op.record_transfer 7 1 (some 5) 1, Op.confirm_transfer 7],
      op.isRecordOrResolve = true) ∧
    (runOps ⟨[⟨1, "A", 0, 10, [⟨0, ⟨1, 1, .NotAvailable⟩, 10⟩]⟩], [], [], [], [], 1⟩
        [Op.record_transfer 7 1 (some 5) 1, Op.confirm_transfer 7]).1 = .ok () ∧
    totalQuantity
        ⟨[⟨1, "A", 0, 10, [⟨0, ⟨1, 1, .NotAvailable⟩, 10⟩]⟩], [], [], [], [], 1⟩ = 10 ∧
    totalQuantity
      (runOps ⟨[⟨1, "A", 0, 10, [⟨0, ⟨1, 1, .NotAvailable⟩, 10⟩]⟩], [], [], [], [], 1⟩
        [Op.record_transfer 7 1 (some 5) 1, Op.confirm_transfer 7]).2 = 5 := by
  decide

/-- Witness for the amended C1: transferring 4 units from account 1 to
account 2 and confirming — a sequence meeting the side conditions —
preserves the total quantity. -/
theorem conservation_witness :
    totalQuantity
        ⟨[⟨2, "B", 0, 4, [⟨1, ⟨1, 1, .NotAvailable⟩, 4⟩]⟩,
          ⟨1, "A", 0, 6, [⟨0, ⟨1, 1, .NotAvailable⟩, 6⟩]⟩], [], [], [], [], 2⟩ =
      totalQuantity
        ⟨[⟨1, "A", 0, 10, [⟨0, ⟨1, 1, .NotAvailable⟩, 10⟩]⟩, ⟨2, "B", 0, 0, []⟩],
         [], [], [], [], 1⟩ :=
  conservation [Op.record_transfer 7 1 (some 4) 2, Op.confirm_transfer 7]
    ⟨[⟨1, "A", 0, 10, [⟨0, ⟨1, 1, .NotAvailable⟩, 10⟩]⟩, ⟨2, "B", 0, 0, []⟩],
     [], [], [], [], 1⟩
    ⟨[⟨2, "B", 0, 4, [⟨1, ⟨1, 1, .NotAvailable⟩, 4⟩]⟩,
      ⟨1, "A", 0, 6, [⟨0, ⟨1, 1, .NotAvailable⟩, 6⟩]⟩], [], [], [], [], 2⟩
    (by decide) (by decide) (by decide) (by decide)

/-- C2 — Balance identity (I1): on a store with distinct addresses whose
accounts all satisfy `sum(lots) = last_update_balance`, every modelled
public operation that completes with `Ok` leaves every stored account
satisfying the identity; and passing an inconsistent record to
`add_account` or `update_account` is a fatal assertion failure (modelled
`fatal`), never a recoverable error return — the assertion fires before
anything is written. -/
theorem balance_identity :
    (∀ (op : Op) (db db' : Db),
      addrNodup db.accounts →
      (∀ x ∈ db.accounts, x.consistent) →
      op.step db = (.ok (), db') →
      ∀ x ∈ db'.accounts, x.consistent) ∧
    (∀ (db : Db) (a : TrackedAccount), ¬ a.consistent →
      (db.add_account a).1 = .fatal ∧ (db.update_account a).1 = .fatal) := by
  constructor
  · intro op db db' hnodup hall h
    cases op with
    | record_transfer s f amt t =>
      obtain ⟨fa, fa', ext, n', hget, htsome, hex, ht, hd, ho, hdl, hn, hnd,
          hsum, hgetf, hother, hcons⟩ := record_transfer_ok_inv hnodup h
      exact hcons hall
    | record_deposit s f a e d =>
      have h' : ({ db with deposits := db.deposits ++ [⟨s, e, a⟩] } : Db).record_transfer s f (some a) d = (.ok (), db') := h
      obtain ⟨fa, fa', ext, n', hget, htsome, hex, ht, hd, ho, hdl, hn, hnd,
          hsum, hgetf, hother, hcons⟩ := record_transfer_ok_inv (show addrNodup ({ db with deposits := db.deposits ++ [⟨s, e, a⟩] } : Db).accounts from hnodup) h'
      exact hcons hall
    | record_order d a e pair i =>
      obtain ⟨dep, dep', lots, n', hget, hex, ho, hd, ht, hdl, hn, hnd, hcons,
          hsum⟩ := record_order_extracting_ok_inv hnodup h
      exact hcons hall
    | confirm_transfer s =>
      obtain ⟨pt, fa, ta, hfind, hfrom, hto, ht, hd, ho, hdl, hn, hnd, hcons,
          hacc, hgetfrom⟩ := complete_transfer_ok_inv hnodup h
      exact hcons hall
    | cancel_transfer s =>
      obtain ⟨pt, fa, ta, hfind, hfrom, hto, ht, hd, ho, hdl, hn, hnd, hcons,
          hacc, hgetfrom⟩ := complete_transfer_ok_inv hnodup h
      exact hcons hall
    | confirm_deposit s =>
      have hstep : Db.complete_deposit db s true = (.ok (), db') := h
      unfold Db.complete_deposit at hstep
      cases hfd : db.deposits.find? (fun pd => pd.signature == s) with
      | none => rw [hfd] at hstep; simp at hstep
      | some pd =>
        rw [hfd] at hstep
        simp only [] at hstep
        obtain ⟨pt, fa, ta, hfind, hfrom, hto, ht, hd, ho, hdl, hn, hnd, hcons,
            hacc, hgetfrom⟩ := complete_transfer_ok_inv (show addrNodup ({ db with deposits := db.deposits.filter (fun pd => pd.signature != s) } : Db).accounts from hnodup) hstep
        exact hcons hall
    | cancel_deposit s =>
      have hstep : Db.complete_deposit db s true = (.ok (), db') := h
      unfold Db.complete_deposit at hstep
      cases hfd : db.deposits.find? (fun pd => pd.signature == s) with
      | none => rw [hfd] at hstep; simp at hstep
      | some pd =>
        rw [hfd] at hstep
        simp only [] at hstep
        obtain ⟨pt, fa, ta, hfind, hfrom, hto, ht, hd, ho, hdl, hn, hnd, hcons,
            hacc, hgetfrom⟩ := complete_transfer_ok_inv (show addrNodup ({ db with deposits := db.deposits.filter (fun pd => pd.signature != s) } : Db).accounts from hnodup) hstep
        exact hcons hall
    | confirm_order i p w =>
      have h' : db.complete_order i (some (p, w)) = (.ok (), db') := h
      obtain ⟨o, hfind, ho, hd, ht, hn, hnd, hcons, hbal⟩ :=
        complete_order_ok_inv hnodup h'
      exact hcons hall
    | cancel_order i =>
      have h' : db.complete_order i none = (.ok (), db') := h
      obtain ⟨o, hfind, ho, hd, ht, hn, hnd, hcons, hbal⟩ :=
        complete_order_ok_inv hnodup h'
      exact hcons hall
    | add_account a =>
      obtain ⟨hc, hnone, hdb'⟩ := add_account_ok_inv h
      intro x hx
      rw [hdb'] at hx
      have hx' : x ∈ db.accounts ++ [a] := hx
      rcases List.mem_append.1 hx' with hx'' | hx''
      · exact hall x hx''
      · rw [List.mem_singleton.1 hx'']
        exact hc
    | update_account a =>
      obtain ⟨hc, pre, cur, post, hsplit, hcur, hpre, hdb'⟩ :=
        update_account_ok_inv h
      intro x hx
      rw [hdb'] at hx
      have hx' : x ∈ (pre ++ post) ++ [a] := hx
      rcases List.mem_append.1 hx' with hx'' | hx''
      · rcases List.mem_append.1 hx'' with hx3 | hx3
        · exact hall x (hsplit ▸ List.mem_append_left _ hx3)
        · exact hall x (hsplit ▸ List.mem_append_right _ (List.mem_cons_of_mem _ hx3))
      · rw [List.mem_singleton.1 hx'']
        exact hc
    | remove_account addr =>
      obtain ⟨pre, cur, post, hsplit, hcur, hdb'⟩ := remove_account_ok_inv h
      intro x hx
      rw [hdb'] at hx
      have hx' : x ∈ pre ++ post := hx
      rcases List.mem_append.1 hx' with hx'' | hx''
      · exact hall x (hsplit ▸ List.mem_append_left _ hx'')
      · exact hall x (hsplit ▸ List.mem_append_right _ (List.mem_cons_of_mem _ hx''))
  · intro db a hna
    have hcond : lotBalance a.lots ≠ a.last_update_balance := hna
    constructor
    · unfold Db.add_account
      rw [if_pos hcond]
    · unfold Db.update_account
      rw [if_pos hcond]

/-- Witness for C2: adding a consistent account to an empty store leaves
every stored account consistent, while an account whose lots sum to 0 but
whose `last_update_balance` claims 3 makes both `add_account` and
`update_account` abort fatally. -/
theorem balance_identity_witness :
    (∀ x ∈ ([⟨1, "a", 0, 5, [⟨0, ⟨1, 1, .NotAvailable⟩, 5⟩]⟩] :
        List TrackedAccount), x.consistent) ∧
    ((⟨[], [], [], [], [], 0⟩ : Db).add_account ⟨1, "x", 0, 3, []⟩).1 = .fatal ∧
    ((⟨[], [], [], [], [], 0⟩ : Db).update_account ⟨1, "x", 0, 3, []⟩).1 = .fatal :=
  ⟨balance_identity.1 (Op.add_account ⟨1, "a", 0, 5, [⟨0, ⟨1, 1, .NotAvailable⟩, 5⟩]⟩)
      ⟨[], [], [], [], [], 0⟩
      ⟨[⟨1, "a", 0, 5, [⟨0, ⟨1, 1, .NotAvailable⟩, 5⟩]⟩], [], [], [], [], 0⟩
      (by decide) (by decide) (by decide),
   (balance_identity.2 ⟨[], [], [], [], [], 0⟩ ⟨1, "x", 0, 3, []⟩ (by decide)).1,
   (balance_identity.2 ⟨[], [], [], [], [], 0⟩ ⟨1, "x", 0, 3, []⟩ (by decide)).2⟩

theorem find?_append_singleton {α : Type} (p : α → Bool) (l : List α) (x : α)
    (hl : ∀ y ∈ l, ¬ p y = true) (hx : p x = true) :
    (l ++ [x]).find? p = some x := by
  induction l with
  | nil => simp [List.find?, hx]
  | cons a rest ih =>
    rw [List.cons_append,
      List.find?_cons_of_neg _ (hl a (List.mem_cons_self _ _))]
    exact ih (fun y hy => hl y (List.mem_cons_of_mem _ hy))

/-- `record_transfer` succeeds when both accounts are registered, the
from-account is consistent, and it has the requested amount. -/
theorem record_transfer_ok (db : Db) (s f amount t : Nat) (fa : TrackedAccount)
    (hf : db.get_account f = some fa)
    (ht : (db.get_account t).isSome)
    (hcons : fa.consistent)
    (hamt : amount ≤ fa.last_update_balance) :
    ∃ db1, db.record_transfer s f (some amount) t = (.ok (), db1) := by
  obtain ⟨ta, hta⟩ := Option.isSome_iff_exists.1 ht
  obtain ⟨fa', ext, n', hex, haddr, hbal, hextbal, hkept, hacq, hcons'⟩ :=
    extract_lots_ok_spec fa db.next_lot_number amount hcons hamt
  have hreg : (({ db with next_lot_number := n', transfers := db.transfers ++ [⟨s, f, t, ext⟩] } : Db).get_account fa'.address).isSome := by
    have h2 : findAccount fa'.address db.accounts = some fa := by
      rw [haddr, findAccount_address (show findAccount f db.accounts = some fa from hf)]
      exact hf
    have h3 : (({ db with next_lot_number := n', transfers := db.transfers ++ [⟨s, f, t, ext⟩] } : Db).get_account fa'.address) = some fa := h2
    rw [h3]
    rfl
  obtain ⟨db1, hupd⟩ :=
    update_account_ok { db with next_lot_number := n', transfers := db.transfers ++ [⟨s, f, t, ext⟩] } fa' hcons' hreg
  refine ⟨db1, ?_⟩
  unfold Db.record_transfer
  rw [show db.get_account f = some fa from hf]
  simp only []
  rw [show db.get_account t = some ta from hta]
  simp only []
  have hex' : fa.extract_lots db.next_lot_number
      ((some amount).getD fa.last_update_balance) = .ok (fa', ext, n') := hex
  rw [hex']
  simp only []
  exact hupd

/-- `complete_transfer` succeeds when the signature is pending and both
named accounts are registered and consistent. -/
theorem complete_transfer_ok (db : Db) (s : Nat) (success : Bool)
    (pt : PendingTransfer) (hnodup : addrNodup db.accounts)
    (hfind : db.transfers.find? (fun p => p.signature == s) = some pt)
    (hfromS : (db.get_account pt.from_address).isSome)
    (htoS : (db.get_account pt.to_address).isSome)
    (hall : ∀ x ∈ db.accounts, x.consistent) :
    ∃ db', db.complete_transfer s success = (.ok (), db') := by
  obtain ⟨fa, hfa⟩ := Option.isSome_iff_exists.1 hfromS
  obtain ⟨ta, hta⟩ := Option.isSome_iff_exists.1 htoS
  have hfa' : findAccount pt.from_address db.accounts = some fa := hfa
  have hta' : findAccount pt.to_address db.accounts = some ta := hta
  have hfaaddr : fa.address = pt.from_address := findAccount_address hfa'
  have htaaddr : ta.address = pt.to_address := findAccount_address hta'
  have hfacons : fa.consistent := hall fa (findAccount_mem hfa')
  have htacons : ta.consistent := hall ta (findAccount_mem hta')
  have hnodup1 : addrNodup ({ db with transfers := db.transfers.filter (fun p => p.signature != s) } : Db).accounts := hnodup
  cases success with
  | true =>
    have hm := merge_lots_ok ta pt.lots htacons
    obtain ⟨hrec, hconsM, hbalM, hacqM⟩ := merge_lots_ok_inv hm
    have hMaddr : ({ ta with lots := pt.lots.foldl addLot ta.lots, last_update_balance := ta.last_update_balance + lotBalance pt.lots } : TrackedAccount).address = pt.to_address := htaaddr
    have hreg1 : (({ db with transfers := db.transfers.filter (fun p => p.signature != s) } : Db).get_account ({ ta with lots := pt.lots.foldl addLot ta.lots, last_update_balance := ta.last_update_balance + lotBalance pt.lots } : TrackedAccount).address).isSome := by
      have h2 : findAccount pt.to_address db.accounts = some ta := hta'
      rw [show ({ ta with lots := pt.lots.foldl addLot ta.lots, last_update_balance := ta.last_update_balance + lotBalance pt.lots } : TrackedAccount).address = pt.to_address from htaaddr]
      have h3 : (({ db with transfers := db.transfers.filter (fun p => p.signature != s) } : Db).get_account pt.to_address) = some ta := h2
      rw [h3]
      rfl
    obtain ⟨db2, hu1⟩ :=
      update_account_ok { db with transfers := db.transfers.filter (fun p => p.signature != s) } { ta with lots := pt.lots.foldl addLot ta.lots, last_update_balance := ta.last_update_balance + lotBalance pt.lots } (by rw [← hrec]; exact hconsM) hreg1
    obtain ⟨cur1, hg1, hg1', hother1, hnodup2, hmem1, hsum1, hd1, ht1, ho1,
        hdl1, hn1, hb1⟩ := update_account_ok_spec hnodup1 hu1
    have hreg2 : (db2.get_account fa.address).isSome := by
      rw [hfaaddr]
      by_cases halias : pt.from_address = pt.to_address
      · rw [halias, ← hMaddr, hg1']
        rfl
      · rw [hother1 pt.from_address (by rw [hMaddr]; exact halias)]
        have h3 : (({ db with transfers := db.transfers.filter (fun p => p.signature != s) } : Db).get_account pt.from_address) = some fa := hfa'
        rw [h3]
        rfl
    obtain ⟨db3, hu2⟩ := update_account_ok db2 fa hfacons hreg2
    refine ⟨db3, ?_⟩
    unfold Db.complete_transfer
    rw [hfind]
    simp only [Db.get_account]
    rw [hfa', hta']
    simp only []
    rw [hm]
    simp only []
    rw [hu1]
    simp only []
    exact hu2
  | false =>
    have hm := merge_lots_ok fa pt.lots hfacons
    obtain ⟨hrec, hconsM, hbalM, hacqM⟩ := merge_lots_ok_inv hm
    have hMaddr : ({ fa with lots := pt.lots.foldl addLot fa.lots, last_update_balance := fa.last_update_balance + lotBalance pt.lots } : TrackedAccount).address = pt.from_address := hfaaddr
    have hreg1 : (({ db with transfers := db.transfers.filter (fun p => p.signature != s) } : Db).get_account ta.address).isSome := by
      rw [htaaddr]
      have h3 : (({ db with transfers := db.transfers.filter (fun p => p.signature != s) } : Db).get_account pt.to_address) = some ta := hta'
      rw [h3]
      rfl
    obtain ⟨db2, hu1⟩ :=
      update_account_ok { db with transfers := db.transfers.filter (fun p => p.signature != s) } ta htacons hreg1
    obtain ⟨cur1, hg1, hg1', hother1, hnodup2, hmem1, hsum1, hd1, ht1, ho1,
        hdl1, hn1, hb1⟩ := update_account_ok_spec hnodup1 hu1
    have hreg2 : (db2.get_account ({ fa with lots := pt.lots.foldl addLot fa.lots, last_update_balance := fa.last_update_balance + lotBalance pt.lots } : TrackedAccount).address).isSome := by
      rw [show ({ fa with lots := pt.lots.foldl addLot fa.lots, last_update_balance := fa.last_update_balance + lotBalance pt.lots } : TrackedAccount).address = pt.from_address from hMaddr]
      by_cases halias : pt.from_address = pt.to_address
      · rw [halias, ← htaaddr, hg1']
        rfl
      · rw [hother1 pt.from_address (by rw [htaaddr]; exact halias)]
        have h3 : (({ db with transfers := db.transfers.filter (fun p => p.signature != s) } : Db).get_account pt.from_address) = some fa := hfa'
        rw [h3]
        rfl
    obtain ⟨db3, hu2⟩ :=
      update_account_ok db2 { fa with lots := pt.lots.foldl addLot fa.lots, last_update_balance := fa.last_update_balance + lotBalance pt.lots } (by rw [← hrec]; exact hconsM) hreg2
    refine ⟨db3, ?_⟩
    unfold Db.complete_transfer
    rw [hfind]
    simp only [Db.get_account]
    rw [hfa', hta']
    simp only []
    rw [hm]
    simp only []
    rw [hu1]
    simp only []
    exact hu2

/-- C7 — Round-trip cancel: on a well-formed consistent store, recording a
transfer of `amount ≤ balance` from a registered account `A` to a registered
destination `B` under a fresh signature and then resolving it with failure
both succeed, and `A` ends with its original `last_update_balance`, its
original total lot sum, and the same quantity for every acquisition identity
(the lot set is preserved up to split artifacts). -/
theorem round_trip_cancel (db : Db) (sig A B amount : Nat)
    (accA : TrackedAccount)
    (hnodup : addrNodup db.accounts)
    (hall : ∀ x ∈ db.accounts, x.consistent)
    (hA : db.get_account A = some accA)
    (hB : (db.get_account B).isSome)
    (hfresh : ∀ pt ∈ db.transfers, pt.signature ≠ sig)
    (hamt : amount ≤ accA.last_update_balance) :
    ∃ db1 db2 accA',
      db.record_transfer sig A (some amount) B = (.ok (), db1) ∧
      db1.cancel_transfer sig = (.ok (), db2) ∧
      db2.get_account A = some accA' ∧
      accA'.last_update_balance = accA.last_update_balance ∧
      lotBalance accA'.lots = lotBalance accA.lots ∧
      (∀ acq, acqBalance accA'.lots acq = acqBalance accA.lots acq) := by
  have hAfa : findAccount A db.accounts = some accA := hA
  have hconsA : accA.consistent := hall accA (findAccount_mem hAfa)
  obtain ⟨db1, hrec⟩ := record_transfer_ok db sig A amount B accA hA hB hconsA hamt
  obtain ⟨fa, fa', ext, n', hget, htsome, hex, ht1, hd1, ho1, hdl1, hn1, hnd1,
      hsum1, hgetf1, hother1, hcons1⟩ := record_transfer_ok_inv hnodup hrec
  have hfa : fa = accA := by
    rw [hget] at hA
    exact Option.some.inj hA
  subst hfa
  have hexfacts := extract_lots_ok_inv
    (show fa.extract_lots db.next_lot_number amount = .ok (fa', ext, n') from hex)
  obtain ⟨haddr', hdesc', hepoch', hle', hbal', hextbal', htotal', hacq',
      hconsfa'⟩ := hexfacts
  have hfind1 : db1.transfers.find? (fun p => p.signature == sig) =
      some ⟨sig, A, B, ext⟩ := by
    rw [ht1]
    apply find?_append_singleton
    · intro y hy
      simpa using hfresh y hy
    · simp
  have hallc1 : ∀ x ∈ db1.accounts, x.consistent := hcons1 hall
  have hfromS1 : (db1.get_account A).isSome := by
    rw [hgetf1]
    rfl
  have htoS1 : (db1.get_account B).isSome := by
    by_cases hAB : B = A
    · rw [hAB]
      exact hfromS1
    · rw [hother1 B hAB]
      exact hB
  obtain ⟨db2, hcan⟩ := complete_transfer_ok db1 sig false ⟨sig, A, B, ext⟩
    hnd1 hfind1 hfromS1 htoS1 hallc1
  obtain ⟨pt2, fa2, ta2, hfind2, hfrom2, hto2, ht2, hd2, ho2, hdl2, hn2, hnd2,
      hcons2, hacc2, hgetfrom2⟩ := complete_transfer_ok_inv hnd1 hcan
  have hpt2 : pt2 = ⟨sig, A, B, ext⟩ := by
    rw [hfind1] at hfind2
    exact (Option.some.inj hfind2).symm
  subst hpt2
  have hfa2 : fa2 = fa' := by
    have h2 : db1.get_account A = some fa2 := hfrom2
    rw [hgetf1] at h2
    exact (Option.some.inj h2).symm
  have hfin := hgetfrom2 rfl
  rw [hfa2] at hfin
  refine ⟨db1, db2, _, hrec, hcan, hfin, ?_, ?_, ?_⟩
  · show fa'.last_update_balance +
      lotBalance (⟨sig, A, B, ext⟩ : PendingTransfer).lots = _
    have hext2 : lotBalance (⟨sig, A, B, ext⟩ : PendingTransfer).lots =
        amount := hextbal'
    omega
  · show lotBalance ((⟨sig, A, B, ext⟩ : PendingTransfer).lots.foldl
      addLot fa'.lots) = _
    rw [lotBalance_foldl_addLot]
    have hext2 : lotBalance (⟨sig, A, B, ext⟩ : PendingTransfer).lots =
        amount := hextbal'
    omega
  · intro acq
    show acqBalance ((⟨sig, A, B, ext⟩ : PendingTransfer).lots.foldl
      addLot fa'.lots) acq = _
    rw [acqBalance_foldl_addLot]
    have := hacq' acq
    have hext3 : acqBalance (⟨sig, A, B, ext⟩ : PendingTransfer).lots acq =
        acqBalance ext acq := rfl
    omega

/-- Witness for C7: transferring 4 of 10 units from account 1 to account 2
and cancelling restores account 1's balance and per-acquisition quantities. -/
theorem round_trip_cancel_witness :
    ∃ db1 db2 accA',
      Db.record_transfer
          ⟨[⟨1, "A", 0, 10, [⟨0, ⟨1, 1, .NotAvailable⟩, 10⟩]⟩, ⟨2, "B", 0, 0, []⟩],
           [], [], [], [], 1⟩ 7 1 (some 4) 2 = (.ok (), db1) ∧
      db1.cancel_transfer 7 = (.ok (), db2) ∧
      db2.get_account 1 = some accA' ∧
      accA'.last_update_balance =
        (⟨1, "A", 0, 10, [⟨0, ⟨1, 1, .NotAvailable⟩, 10⟩]⟩ :
          TrackedAccount).last_update_balance ∧
      lotBalance accA'.lots =
        lotBalance (⟨1, "A", 0, 10, [⟨0, ⟨1, 1, .NotAvailable⟩, 10⟩]⟩ :
          TrackedAccount).lots ∧
      (∀ acq, acqBalance accA'.lots acq =
        acqBalance (⟨1, "A", 0, 10, [⟨0, ⟨1, 1, .NotAvailable⟩, 10⟩]⟩ :
          TrackedAccount).lots acq) :=
  round_trip_cancel
    ⟨[⟨1, "A", 0, 10, [⟨0, ⟨1, 1, .NotAvailable⟩, 10⟩]⟩, ⟨2, "B", 0, 0, []⟩],
     [], [], [], [], 1⟩ 7 1 2 4
    ⟨1, "A", 0, 10, [⟨0, ⟨1, 1, .NotAvailable⟩, 10⟩]⟩
    (by decide) (by decide) (by decide) (by decide) (by decide) (by decide)
